import Mathlib

/-!
Verification of the spiff flow engine core (flow/flow.go, dynaml/control/for.go)
against the annotated-node data model (yaml node/annotation sources).

The data model and the flow functions are shallowly embedded below.  The DSL
expression sublanguage is a collaborator of the engine (spec section 1 and 6):
its internals are opaque here and appear as parameters (a `Handlers` record) or
as the minimal constructors the engine itself pattern-matches on.
-/

namespace Spiff

/-- Diagnostic issue with nested sub-issues (source: yaml `Issue` struct). -/
inductive Issue where
  | mk (msg : String) (nested : List Issue)

def Issue.msg : Issue → String
  | .mk m _ => m

def Issue.nested : Issue → List Issue
  | .mk _ n => n

/-- Source: `NewIssue` (format arguments already applied). -/
def NewIssue (msg : String) : Issue :=
  .mk msg []

def EmptyIssue : Issue := .mk "" []

/-- Modelled from the spec: the bit-flag set carried by newer node
annotations (spec section 3.2 and 4.3); the yaml source in this repository
snapshot predates the flag field, but flow.go consults these flags. -/
structure NodeFlags where
  temporary : Bool := false
  state : Bool := false
  localF : Bool := false
  defaultF : Bool := false
  inject : Bool := false
  injected : Bool := false
  implied : Bool := false
  dynamic : Bool := false
  overridden : Bool := false
deriving DecidableEq, Repr

def NodeFlags.empty : NodeFlags := {}

/-- Bitwise or of two flag sets (Go `flags | other`). -/
def NodeFlags.union (a b : NodeFlags) : NodeFlags where
  temporary := a.temporary || b.temporary
  state := a.state || b.state
  localF := a.localF || b.localF
  defaultF := a.defaultF || b.defaultF
  inject := a.inject || b.inject
  injected := a.injected || b.injected
  implied := a.implied || b.implied
  dynamic := a.dynamic || b.dynamic
  overridden := a.overridden || b.overridden

/-- Go `flags & (FLAG_TEMPORARY | FLAG_STATE)` used by `get_inherited_flags`. -/
def NodeFlags.maskTemporaryState (a : NodeFlags) : NodeFlags :=
  { NodeFlags.empty with temporary := a.temporary, state := a.state }

/-- Modelled from the spec: `flags.Overridden()` keeps the OVERRIDDEN bit
that the stub-override step ORs into the substituted node (spec 4.1 step 5). -/
def NodeFlags.Overridden (a : NodeFlags) : NodeFlags :=
  { NodeFlags.empty with overridden := a.overridden }

/-- Modelled from the spec: `flags.PropagateImplied()` tests the IMPLIED bit. -/
def NodeFlags.PropagateImplied (a : NodeFlags) : Bool := a.implied

/-- The `Annotation` envelope carried by every node (source: yaml
`Annotation` struct).  The `flags` and `tag` fields are modelled from the
spec (section 3.2): the yaml source in this snapshot predates them but
flow.go reads and writes them. -/
structure Annot where
  redirectPath : List String := []
  temporary : Bool := false
  replace : Bool := false
  preferred : Bool := false
  merged : Bool := false
  keyName : String := ""
  errorF : Bool := false
  failed : Bool := false
  undefined : Bool := false
  issue : Issue := EmptyIssue
  flags : NodeFlags := {}
  tag : String := ""

/-- Source: `EmptyAnnotation`. -/
def EmptyAnnot : Annot := {}

/-- Source: `Annotation.Merged`: true also when the replace flag is set or a
redirect path is present. -/
def Annot.Merged (n : Annot) : Bool :=
  n.merged || n.replace || !n.redirectPath.isEmpty

def Annot.SetTemporary (n : Annot) : Annot := { n with temporary := true }

def Annot.SetRedirectPath (n : Annot) (redirect : List String) : Annot :=
  { n with redirectPath := redirect }

def Annot.SetReplaceFlag (n : Annot) : Annot := { n with replace := true }

def Annot.SetPreferred (n : Annot) : Annot := { n with preferred := true }

def Annot.SetMerged (n : Annot) : Annot := { n with merged := true }

def Annot.SetUndefined (n : Annot) : Annot := { n with undefined := true }

def Annot.AddKeyName (n : Annot) (keyName : String) : Annot :=
  if keyName != "" then { n with keyName := keyName } else n

def Annot.AddIssue (n : Annot) (error failed : Bool) (issue : Issue) : Annot :=
  let n := if Issue.msg issue != "" then { n with issue := issue } else n
  { n with errorF := error, failed := failed }

/-- DSL expressions are a collaborator (spec section 6); the engine only
pattern-matches on merge expressions (`MergeExpr.Required`, used by
`simpleMergeCompatibilityCheck`) and marker expressions (`MarkerExpr`, used
by `asTemplate`).  Everything else is opaque. -/
inductive Expr where
  | mergeE (required : Bool)
  | marker (tmpl : Bool) (flags : NodeFlags) (tag : String) (wrapped : Option Expr)
  | opaqueE (n : Nat)

/-- Structural equality test on expressions (Go `reflect.DeepEqual` on the
expression leaf values). -/
def exprBEq : Expr → Expr → Bool
  | .mergeE r, .mergeE r' => r == r'
  | .marker t f g w, .marker t' f' g' w' =>
    t == t' && f == f' && g == g' &&
      (match w, w' with
       | none, none => true
       | some a, some b => exprBEq a b
       | _, _ => false)
  | .opaqueE n, .opaqueE n' => n == n'
  | _, _ => false

/-- Source: `dynaml.NewTemplateMarker` (a marker carrying TEMPLATE). -/
def NewTemplateMarker (wrapped : Option Expr) : Expr :=
  .marker true {} "" wrapped

/-- `MarkerExpr.Has(dynaml.TEMPLATE)` for the marker produced by `asTemplate`. -/
def Expr.markerHasTemplate : Expr → Bool
  | .marker t _ _ _ => t
  | _ => false

/-- `MarkerExpr.GetFlags`. -/
def Expr.markerFlags : Expr → NodeFlags
  | .marker _ f _ _ => f
  | _ => {}

/-- `MarkerExpr.GetTag`. -/
def Expr.markerTag : Expr → String
  | .marker _ _ t _ => t
  | _ => ""

mutual
/-- A node value (spec section 3.1): scalar, sequence, ordered map,
unresolved DSL expression, or template value.  Maps are association lists
with the unique keys of the Go `map[string]yaml.Node`. -/
inductive Val where
  | str : String → Val
  | intV : Int → Val
  | boolV : Bool → Val
  | null : Val
  | seq : List Node → Val
  | map : List (String × Node) → Val
  | expr : Expr → Val
  | tmpl : List String → Node → Node → Val

/-- `AnnotatedNode`: a value with its source name and annotation envelope.
The captured binding of a template value is not modelled (it belongs to the
collaborator side and no flow-engine decision consulted here reads it). -/
inductive Node where
  | mk : Val → String → Annot → Node
end

def Node.Value : Node → Val
  | .mk v _ _ => v

def Node.SourceName : Node → String
  | .mk _ s _ => s

def Node.ann : Node → Annot
  | .mk _ _ a => a

def Node.RedirectPath (n : Node) : List String := (Node.ann n).redirectPath
def Node.Temporary (n : Node) : Bool := (Node.ann n).temporary
def Node.ReplaceFlag (n : Node) : Bool := (Node.ann n).replace
def Node.Preferred (n : Node) : Bool := (Node.ann n).preferred
def Node.Merged (n : Node) : Bool := Annot.Merged (Node.ann n)
def Node.KeyName (n : Node) : String := (Node.ann n).keyName
def Node.HasError (n : Node) : Bool := (Node.ann n).errorF
def Node.Failed (n : Node) : Bool := (Node.ann n).failed
def Node.Undefined (n : Node) : Bool := (Node.ann n).undefined
def Node.IssueOf (n : Node) : Issue := (Node.ann n).issue
def Node.Flags (n : Node) : NodeFlags := (Node.ann n).flags
def Node.Tag (n : Node) : String := (Node.ann n).tag

/-- Source: `NewNode` (Go `MassageType` widens small ints to int64; the
model uses `Int` throughout, so it is the identity here). -/
def NewNode (value : Val) (sourcePath : String) : Node :=
  .mk value sourcePath EmptyAnnot

/-- Source: `ReplaceValue`. -/
def ReplaceValue (value : Val) (node : Node) : Node :=
  .mk value (Node.SourceName node) (Node.ann node)

/-- Source: `SubstituteNode`. -/
def SubstituteNode (value : Val) (node : Node) : Node :=
  .mk value (Node.SourceName node) (Node.ann node)

/-- Source: `RedirectNode`. -/
def RedirectNode (value : Val) (node : Node) (redirect : List String) : Node :=
  .mk value (Node.SourceName node) (Annot.SetRedirectPath (Node.ann node) redirect)

/-- Source: `ReplaceNode`. -/
def ReplaceNode (value : Val) (node : Node) (redirect : List String) : Node :=
  .mk value (Node.SourceName node)
    (Annot.SetRedirectPath (Annot.SetReplaceFlag (Node.ann node)) redirect)

/-- Source: `PreferredNode`. -/
def PreferredNode (node : Node) : Node :=
  .mk (Node.Value node) (Node.SourceName node) (Annot.SetPreferred (Node.ann node))

/-- Source: `MergedNode`. -/
def MergedNode (node : Node) : Node :=
  .mk (Node.Value node) (Node.SourceName node) (Annot.SetMerged (Node.ann node))

/-- Source: `KeyNameNode`. -/
def KeyNameNode (node : Node) (keyName : String) : Node :=
  .mk (Node.Value node) (Node.SourceName node) (Annot.AddKeyName (Node.ann node) keyName)

/-- Source: `IssueNode`. -/
def IssueNode (node : Node) (error failed : Bool) (issue : Issue) : Node :=
  .mk (Node.Value node) (Node.SourceName node)
    (Annot.AddIssue (Node.ann node) error failed issue)

/-- Source: `UndefinedNode`. -/
def UndefinedNode (node : Node) : Node :=
  .mk (Node.Value node) (Node.SourceName node) (Annot.SetUndefined (Node.ann node))

/-- Source: `TemporaryNode`. -/
def TemporaryNode (node : Node) : Node :=
  .mk (Node.Value node) (Node.SourceName node) (Annot.SetTemporary (Node.ann node))

/-- Modelled from the spec: `yaml.AddFlags` ORs flag bits into the node's
annotation (spec 3.2; absent from the older yaml source in this snapshot). -/
def AddFlags (node : Node) (flags : NodeFlags) : Node :=
  .mk (Node.Value node) (Node.SourceName node)
    { Node.ann node with flags := NodeFlags.union (Node.ann node).flags flags }

/-- Modelled from the spec: `yaml.SetTag` stores a tag on the annotation. -/
def SetTag (node : Node) (tag : String) : Node :=
  .mk (Node.Value node) (Node.SourceName node) { Node.ann node with tag := tag }

/-- Modelled from the spec: `yaml.NewDynamicNode` builds a fresh node for a
value with a retained template (spec 4.6); the retained template itself is
not consulted by any property proved here. -/
def NewDynamicNode (value : Val) (sourcePath : String) : Node :=
  .mk value sourcePath EmptyAnnot

/-- Modelled from the spec: `Node.StandardOverride` holds for a node "not
already replaced or redirected by an in-document directive" (spec 4.1
step 5). -/
def Node.StandardOverride (n : Node) : Bool :=
  !(Node.ann n).replace && (Node.ann n).redirectPath.isEmpty

/-- Association-list lookup standing for Go's `m[key]` on a string map. -/
def lookupKey (m : List (String × Node)) (k : String) : Option Node :=
  match m.find? (fun kv => kv.1 == k) with
  | some kv => some kv.2
  | none => none

/-- Go map assignment `m[k] = v`: replace an existing binding else append. -/
def insertKey (m : List (String × Node)) (k : String) (v : Node) : List (String × Node) :=
  match m with
  | [] => [(k, v)]
  | (k', v') :: rest =>
    if k' == k then (k, v) :: rest else (k', v') :: insertKey rest k v

mutual
/-- Structural equality of nested issues (`reflect.DeepEqual` on `Issue`). -/
def issueBEq : Issue → Issue → Bool
  | .mk m n, .mk m' n' => m == m' && issueListBEq n n'

/-- Pairwise structural equality of issue lists. -/
def issueListBEq : List Issue → List Issue → Bool
  | [], [] => true
  | i :: is', j :: js => issueBEq i j && issueListBEq is' js
  | _, _ => false
end

/-- Structural equality of annotations (`reflect.DeepEqual` on `Annotation`). -/
def annotBEq (a b : Annot) : Bool :=
  a.redirectPath == b.redirectPath && a.temporary == b.temporary &&
  a.replace == b.replace && a.preferred == b.preferred && a.merged == b.merged &&
  a.keyName == b.keyName && a.errorF == b.errorF && a.failed == b.failed &&
  a.undefined == b.undefined && issueBEq a.issue b.issue &&
  a.flags == b.flags && a.tag == b.tag

mutual
/-- `reflect.DeepEqual` on annotated nodes: compares value, source name and
annotation structurally. -/
def nodeDeepEq : Node → Node → Bool
  | .mk v s a, .mk v' s' a' => valDeepEq v v' && s == s' && annotBEq a a'

/-- `reflect.DeepEqual` on node values. -/
def valDeepEq : Val → Val → Bool
  | .str s, .str s' => s == s'
  | .intV i, .intV i' => i == i'
  | .boolV b, .boolV b' => b == b'
  | .null, .null => true
  | .seq l, .seq l' => nodesDeepEq l l'
  | .map m, .map m' => entriesDeepEq m m'
  | .expr e, .expr e' => exprBEq e e'
  | .tmpl p b o, .tmpl p' b' o' => p == p' && nodeDeepEq b b' && nodeDeepEq o o'
  | _, _ => false

/-- `reflect.DeepEqual` on node lists. -/
def nodesDeepEq : List Node → List Node → Bool
  | [], [] => true
  | n :: ns, o :: os => nodeDeepEq n o && nodesDeepEq ns os
  | _, _ => false

/-- `reflect.DeepEqual` on map entries. -/
def entriesDeepEq : List (String × Node) → List (String × Node) → Bool
  | [], [] => true
  | (k, n) :: ns, (k', o) :: os => k == k' && nodeDeepEq n o && entriesDeepEq ns os
  | _, _ => false
end

mutual
/-- Source: `AnnotatedNode.EquivalentToNode`.  Only the values are compared:
maps recurse entrywise after a length check, sequences recurse pairwise
after a length check, any other pair of same-typed values falls back to
`reflect.DeepEqual` (spelled out per value constructor), and differently
typed values compare unequal. -/
def equivNode : Node → Node → Bool
  | .mk nv _ _, .mk ov _ _ => equivVal nv ov

/-- Value part of `EquivalentToNode`. -/
def equivVal : Val → Val → Bool
  | .map nv, .map ov => nv.length == ov.length && equivEntries nv ov
  | .seq nv, .seq ov => nv.length == ov.length && equivNodes nv ov
  | .str s, .str s' => s == s'
  | .intV i, .intV i' => i == i'
  | .boolV b, .boolV b' => b == b'
  | .null, .null => true
  | .expr e, .expr e' => exprBEq e e'
  | .tmpl p b o, .tmpl p' b' o' => p == p' && nodeDeepEq b b' && nodeDeepEq o o'
  | _, _ => false

/-- Map case of `EquivalentToNode`: every key of the first map must be
present in the second with an equivalent value. -/
def equivEntries : List (String × Node) → List (String × Node) → Bool
  | [], _ => true
  | (k, nval) :: rest, ov =>
    (match lookupKey ov k with
     | some oval => equivNode nval oval
     | none => false) && equivEntries rest ov

/-- Sequence case of `EquivalentToNode`: pairwise equivalence. -/
def equivNodes : List Node → List Node → Bool
  | [], [] => true
  | n :: ns, o :: os => equivNode n o && equivNodes ns os
  | _, _ => false
end

mutual
/-- Erase the annotation envelope and source name of a node and,
recursively, of every node reachable through container values.  Template
and expression leaf values are left untouched: they are compared by
`reflect.DeepEqual` in the source, annotations included. -/
def stripNode : Node → Node
  | .mk v _ _ => .mk (stripVal v) "" EmptyAnnot

/-- Container-recursive annotation erasure on values. -/
def stripVal : Val → Val
  | .seq l => .seq (stripNodes l)
  | .map m => .map (stripEntries m)
  | v => v

/-- Annotation erasure on node lists. -/
def stripNodes : List Node → List Node
  | [] => []
  | n :: ns => stripNode n :: stripNodes ns

/-- Annotation erasure on map entries. -/
def stripEntries : List (String × Node) → List (String × Node)
  | [] => []
  | (k, n) :: ns => (k, stripNode n) :: stripEntries ns
end

/-- Modelled from the spec: the binding/environment threaded through the
walk (spec section 3.3); the binding implementation is outside the flow
sources.  The stub-tree lookup `FindInStubs` is carried as a function. -/
structure Env where
  path : List String := []
  stubPath : List String := []
  findInStubs : List String → Option Node := fun _ => none
  noMerge : Bool := false
  srcName : String := ""
  scopes : List (List (String × Node)) := []

/-- `Binding.RedirectOverwrite`: further stub lookups target the redirect. -/
def Env.RedirectOverwrite (env : Env) (redirect : List String) : Env :=
  { env with stubPath := redirect }

/-- `Binding.WithPath`: descend one step in document and stub path. -/
def Env.WithPath (env : Env) (key : String) : Env :=
  { env with path := env.path ++ [key], stubPath := env.stubPath ++ [key] }

/-- `Binding.WithScope`: push a local scope. -/
def Env.WithScope (env : Env) (m : List (String × Node)) : Env :=
  { env with scopes := m :: env.scopes }

/-- `Binding.WithSource`. -/
def Env.WithSource (env : Env) (src : String) : Env :=
  { env with srcName := src }

/-- Source: `get_inherited_flags` -- the matching stub value and its
TEMPORARY and STATE flags. -/
def get_inherited_flags (env : Env) : NodeFlags × Option Node :=
  match env.findInStubs env.stubPath with
  | some overridden => (NodeFlags.maskTemporaryState (Node.Flags overridden), some overridden)
  | none => ({}, none)

/-- Modelled from the spec: `yaml.MERGEKEY`, the alternative merge key
(spec section 4.2: the merge key is `<<` with alternative `<<<`). -/
def MERGEKEY : String := "<<<"

/-- Source: `yaml.EmbeddedDynaml` -- the anchored pattern
`^\(\((.*)\)\)$`: the whole scalar is `((` body `))` where the body spans
no line break (`.` does not match a newline).  Formulated over the
character list of the scalar. -/
def EmbeddedDynaml (root : Node) : Option String :=
  match Node.Value root with
  | .str s =>
    let cs := s.data
    let inner := (cs.drop 2).take (cs.length - 4)
    if cs.take 2 == ['(', '('] && cs.reverse.take 2 == [')', ')']
        && !(inner.any (fun c => c == '\n')) then
      some (String.mk inner)
    else none
  | _ => none

/-- Source: `simpleMergeCompatibilityCheck` -- a non-required `MergeExpr`
resulting from an already-parsed (non-initial) merge value is optional. -/
def simpleMergeCompatibilityCheck (initial : Bool) (node : Node) : Bool :=
  if !initial then
    match Node.Value node with
    | .expr (.mergeE required) => !required
    | _ => false
  else false

/-- Source: `asTemplate` -- a marker expression (TEMPLATE added when
enforced), or a fresh template marker around any expression when enforced;
`none` when the expression is no marker and templates are not enforced. -/
def asTemplate (val : Expr) (enforceTemplate : Bool) : Option Expr :=
  match val with
  | .marker t f g w => some (.marker (t || enforceTemplate) f g w)
  | e => if enforceTemplate then some (NewTemplateMarker (some e)) else none

/-- Source: `dynaml.NewTemplateValue` -- the captured binding belongs to
the collaborator side and is not modelled. -/
def NewTemplateValue (path : List String) (body : Node) (orig : Node) : Val :=
  .tmpl path body orig

/-- Source: `substituteNode` -- a dynamic template value is wrapped into a
substitution expression over the retained template (the expression itself
is a collaborator value, kept opaque); the fallback through the retained
annotation template is not modelled (no verified property consults it). -/
def substituteNode (v : Node) : Node × Bool :=
  match Node.Value v with
  | .tmpl _ _ _ =>
    if (Node.Flags v).dynamic then
      (AddFlags (NewDynamicNode (.expr (.opaqueE 0)) "<substitute>") (Node.Flags v), true)
    else (v, false)
  | _ => (v, false)

/-- Source: `updateNode` -- OR missing flags in, then set a differing tag. -/
def updateNode (node : Node) (flags : NodeFlags) (tag : String) : Node :=
  let node :=
    if NodeFlags.union flags (Node.Flags node) != Node.Flags node then AddFlags node flags
    else node
  if tag != "" && tag != Node.Tag node then SetTag node tag else node

/-- Source: `yaml.GetSortedKeys` -- the keys of a map in sorted order. -/
def GetSortedKeys (m : List (String × Node)) : List String :=
  (m.map Prod.fst).insertionSort (· ≤ ·)

/-- Outcome of the Expression case of `_flow` (flow.go source lines
105-232, spec section 4.5): either an early return, or a fall-through to
the stub-override step with an updated node and replace flag.  The case
body is entirely collaborator-driven (`Evaluate`, markers, template
substitution) and is carried as a handler. -/
inductive ExprOut where
  | ret (n : Node)
  | fall (root : Node) (replace : Bool)

/-- The tuple returned by `processMerges` (flow.go source lines 594-707):
the spliced list (or template value), the process/replaced switches, the
redirect path, key name, merge flag, inherited flags, tag, and stub. -/
structure PMOut where
  merged : Val
  process : Bool
  replaced : Bool
  redirectPath : List String := []
  keyName : String := ""
  ismerged : Bool
  flags : NodeFlags := {}
  tag : String := ""
  stub : Option Node := none

/-- `"[<idx>]"` path step for unnamed list elements. -/
def listIdxStep (i : Nat) : String := "[" ++ toString i ++ "]"

/-- The collaborators of the flow walkers: the DSL interface (spec section
6), the mutually recursive walker entry points, and the source functions
whose internals no verified property depends on (`processMerges`,
`stepName`, control dispatch, the Expression case of `_flow`). -/
structure Handlers where
  parse : String → List String → List String → Except String Expr :=
    fun _ _ _ => .error "unparseable"
  flowSub : Node → Env → Bool → Bool → Node := fun n _ _ _ => n
  flowUnder : Node → Env → Bool → Bool → Node := fun n _ _ _ => n
  isControl : Node → Env → Except String Bool := fun _ _ => .ok false
  flowControlF : Node → List (String × Node) → Env → Node × Bool × Bool :=
    fun n _ _ => (n, false, false)
  requireTemplate : String → Env → Bool := fun _ _ => false
  isResolvedNode : Node → Env → Bool := fun _ _ => true
  exprCase : Node → Env → Bool → Bool → ExprOut := fun n _ _ _ => .ret n
  templateExpressionF : Expr → Node → Option Node := fun _ _ => none
  stepNameF : Nat → Node → String → Env → String × Bool :=
    fun i _ _ _ => (listIdxStep i, true)
  processMergesF : Node → List Node → Env → Bool → PMOut :=
    fun orig l _ _ =>
      { merged := .seq l, process := true, replaced := Node.ReplaceFlag orig,
        redirectPath := Node.RedirectPath orig, keyName := Node.KeyName orig,
        ismerged := false, flags := {}, tag := Node.Tag orig, stub := none }

/-- Source: `FlowString` -- extract the embedded dynaml body, parse it, and
substitute the parsed expression into the node.  On a parse failure the
original node is returned unchanged together with the error. -/
def FlowString (H : Handlers) (root : Node) (env : Env) : Node × Option String :=
  match EmbeddedDynaml root with
  | none => (root, none)
  | some sub =>
    match H.parse sub env.path env.stubPath with
    | .error err => (root, some err)
    | .ok e => (SubstituteNode (.expr e) root, none)

/-- Modelled from the spec: `dynaml.IssueNode` attaches an issue with path
context (spec section 7); the path rendering is outside the flow sources,
so it reduces to the plain issue attachment here. -/
def DynIssueNode (_env : Env) (_pathInfo : Bool) (node : Node) (error failed : Bool)
    (issue : Issue) : Node :=
  IssueNode node error failed issue

/-- The replace/redirect wrapping closing `flowMap` (source lines 462-467). -/
def wrapMapResult (result : Val) (root : Node) (replace : Bool) (redirect : List String) :
    Node :=
  if replace then ReplaceNode result root redirect
  else RedirectNode result root redirect

/-- The replace/redirect/substitute wrapping closing `flowList` (source
lines 528-536). -/
def wrapListResult (mergedVal : Val) (keyRoot : Node) (replaced : Bool)
    (redirectPath : List String) : Node :=
  if replaced then ReplaceNode mergedVal keyRoot redirectPath
  else if !redirectPath.isEmpty then RedirectNode mergedVal keyRoot redirectPath
  else SubstituteNode mergedVal keyRoot

/-- The flag/tag finish of `flowList` (source lines 538-544): missing flags
OR-ed in with an early return, else a differing tag set. -/
def finishList (node : Node) (flags : NodeFlags) (tag : String) : Node :=
  if NodeFlags.union flags (Node.Flags node) != Node.Flags node then AddFlags node flags
  else if tag != "" && tag != Node.Tag node then SetTag node tag
  else node

/-- The state accumulated by the merge-key processing of `flowMap`
(flow.go source lines 306-406). -/
structure MergeState where
  newMap : List (String × Node) := []
  mergeval : Option Node := none
  processed : Bool := true
  mergedB : Bool := false
  redirect : List String := []
  replace : Bool := false
  flags : NodeFlags := {}
  tag : String := ""
  template : Bool := false
  addEntries : Bool := true
  errS : Option String := none
  env : Env := {}

/-- The merge-value handling of `flowMap` (source lines 318-401), for the
merge value found under the active merge key.  `.error n` is an early
return of the node `n` (the undefined-merge case); `.ok st` carries the
accumulated state into the entry loop. -/
def flowMapMerge (H : Handlers) (root : Node) (env : Env) (template0 : Bool)
    (flags0 : NodeFlags) (tag0 : String) (redirect0 : List String) (replace0 : Bool)
    (mv : Node) : Except Node MergeState :=
  let initial := match Node.Value mv with | .str _ => true | _ => false
  let base := H.flowUnder mv env false false
  if Node.Undefined base then .error (UndefinedNode root)
  else
    match Node.Value base with
    | .expr e =>
      let mOpt := asTemplate e template0
      let flags := match mOpt with
        | some m => NodeFlags.union flags0 (Expr.markerFlags m)
        | none => flags0
      let tag := match mOpt with
        | some m => if Expr.markerTag m != "" then Expr.markerTag m else tag0
        | none => tag0
      match mOpt with
      | some m =>
        if Expr.markerHasTemplate m then
          .ok { newMap := [], mergeval := H.templateExpressionF m root, processed := true,
                mergedB := false, redirect := redirect0, replace := replace0,
                flags := flags, tag := tag, template := true, addEntries := true,
                errS := none, env := env }
        else if simpleMergeCompatibilityCheck initial base then
          .ok { mergeval := none, redirect := redirect0, replace := replace0,
                flags := flags, tag := tag, template := template0, env := env }
        else
          .ok { mergeval := some base, processed := false, redirect := redirect0,
                replace := replace0, flags := flags, tag := tag, template := template0,
                env := env }
      | none =>
        if simpleMergeCompatibilityCheck initial base then
          .ok { mergeval := none, redirect := redirect0, replace := replace0,
                flags := flags, tag := tag, template := template0, env := env }
        else
          .ok { mergeval := some base, processed := false, redirect := redirect0,
                replace := replace0, flags := flags, tag := tag, template := template0,
                env := env }
    | _ =>
      let baseRedirect := Node.RedirectPath base
      let redirect := if !baseRedirect.isEmpty then baseRedirect else redirect0
      let env := if !baseRedirect.isEmpty then Env.RedirectOverwrite env baseRedirect else env
      let mergedB := Node.Merged base
      let seedOpt : Option (List (String × Node)) :=
        match Node.Value base with | .map bm => some bm | _ => none
      let newMap := (seedOpt.getD []).foldl (fun acc kv => insertKey acc kv.1 kv.2) []
      let replace := Node.ReplaceFlag base
      let parseError := (EmbeddedDynaml base).isSome
      let isNil := match Node.Value base with | .null => true | _ => false
      let errS :=
        if !seedOpt.isSome && !isNil && !parseError then
          some "require map value for merge key insert"
        else none
      if seedOpt.isSome || isNil || !parseError then
        .ok { newMap := newMap, mergeval := none, processed := true, mergedB := mergedB,
              redirect := redirect, replace := replace, flags := flags0, tag := tag0,
              template := template0, addEntries := !replace, errS := errS, env := env }
      else
        .ok { newMap := newMap, mergeval := some base, processed := true,
              mergedB := mergedB, redirect := redirect, replace := replace,
              flags := flags0, tag := tag0, template := template0, addEntries := true,
              errS := errS, env := env }

/-- The entry loop of `flowMap` (source lines 408-437): iterate the keys in
sorted order, flow each non-merge entry when processing is on, and collect
undefined results separately instead of emitting them. -/
def mapEntryLoop (H : Handlers) (rootMap : List (String × Node)) (mergekey : String)
    (st : MergeState) (shouldOverride processed : Bool) (env : Env) :
    List (String × Node) × List (String × Node) :=
  (GetSortedKeys rootMap).foldl
    (fun (acc : List (String × Node) × List (String × Node)) key =>
      let valOpt : Option Node :=
        if key == mergekey then st.mergeval
        else
          match lookupKey rootMap key with
          | some v =>
            some (if processed then
                    H.flowSub v (Env.WithPath env key) shouldOverride
                      (H.requireTemplate key env)
                  else v)
          | none => none
      match valOpt with
      | none => acc
      | some val =>
        if !(Node.Undefined val) then
          let val :=
            if NodeFlags.PropagateImplied st.flags then
              AddFlags val { NodeFlags.empty with implied := true }
            else val
          (insertKey acc.1 key val, acc.2)
        else (acc.1, insertKey acc.2 key val))
    (st.newMap, [])

/-- The stub injection of `flowMap` (source lines 443-453): copy in the
INJECT-flagged stub entries missing from the map. -/
def mapInjection (stub : Option Node) (flags : NodeFlags)
    (newMap : List (String × Node)) : List (String × Node) :=
  match stub with
  | some stubN =>
    if !flags.injected then
      match Node.Value stubN with
      | .map m =>
        m.foldl
          (fun nm kv =>
            if (Node.Flags kv.2).inject && (lookupKey nm kv.1).isNone then
              insertKey nm kv.1
                (AddFlags (substituteNode kv.2).1
                  { NodeFlags.empty with inject := true, injected := true })
            else nm)
          newMap
      | _ => newMap
    else newMap
  | none => newMap

/-- The entry loop, stub injection and finish of `flowMap` (source lines
403-478). -/
def flowMapBody (H : Handlers) (root : Node) (rootMap : List (String × Node))
    (stub : Option Node) (issue : Issue) (failed : Bool) (mergekey : String)
    (st : MergeState) (shouldOverride : Bool) : Node :=
  let processed := if st.template then false else st.processed
  let env := st.env
  let loop :=
    if st.addEntries then mapEntryLoop H rootMap mergekey st shouldOverride processed env
    else (st.newMap, [])
  let newMap := loop.1
  let undefinedM := loop.2
  let flags :=
    if st.mergedB then NodeFlags.union st.flags { NodeFlags.empty with injected := true }
    else st.flags
  let newMap := if st.mergedB then newMap else mapInjection stub st.flags newMap
  let result : Val :=
    if st.template then
      NewTemplateValue env.path (NewNode (.map newMap) (Node.SourceName root)) root
    else .map newMap
  let node := wrapMapResult result root st.replace st.redirect
  let node :=
    match st.errS with
    | some e => IssueNode node true true (NewIssue e)
    | none =>
      if failed then IssueNode node true true issue
      else (H.flowControlF node undefinedM env).1
  updateNode node flags st.tag

/-- Source: `flowMap` (flow.go lines 286-479).  A map containing both merge
keys is rejected immediately; otherwise the merge value is processed, the
entries are flowed in sorted key order with undefined results dropped, stub
INJECT entries are copied in when no merge happened, and the result is
wrapped per replace/redirect with inherited flags and tag. -/
def flowMap (H : Handlers) (root : Node) (env : Env) (shouldOverride template0 : Bool) :
    Node :=
  match Node.Value root with
  | .map rootMap =>
    let fs := get_inherited_flags env
    let flags0 := fs.1
    let stub := fs.2
    let tag0 := Node.Tag root
    let issue := Node.IssueOf root
    let failed := Node.Failed root
    let env := Env.WithScope env rootMap
    let redirect0 := Node.RedirectPath root
    let replace0 := Node.ReplaceFlag root
    let base0 : MergeState :=
      { redirect := redirect0, replace := replace0, flags := flags0, tag := tag0,
        template := template0, env := env }
    match lookupKey rootMap "<<" with
    | some mv =>
      if (lookupKey rootMap MERGEKEY).isSome then
        IssueNode root true true (NewIssue "multiple merge keys not allowed")
      else
        match flowMapMerge H root env template0 flags0 tag0 redirect0 replace0 mv with
        | .error n => n
        | .ok st => flowMapBody H root rootMap stub issue failed "<<" st shouldOverride
    | none =>
      match lookupKey rootMap MERGEKEY with
      | some mv =>
        match flowMapMerge H root env template0 flags0 tag0 redirect0 replace0 mv with
        | .error n => n
        | .ok st => flowMapBody H root rootMap stub issue failed MERGEKEY st shouldOverride
      | none => flowMapBody H root rootMap stub issue failed MERGEKEY base0 shouldOverride
  | _ => root

/-- The element pass of `flowList` (source lines 493-502): resolve a path
step per element, flow resolved elements, and drop undefined results. -/
def elementPass (H : Handlers) (env : Env) (keyName : String) (l : List Node) :
    List Node :=
  (l.foldl
    (fun (acc : List Node × Nat) val =>
      let idx := acc.2
      let sr := H.stepNameF idx val keyName env
      let val := if sr.2 then H.flowSub val (Env.WithPath env sr.1) false false else val
      (if !(Node.Undefined val) then acc.1 ++ [val] else acc.1, idx + 1))
    ([], 0)).1

/-- Source: `flowList` (flow.go lines 481-545).  After `processMerges`, a
processable list runs the element pass; when no merge happened, the
INJECT-flagged elements of a list-valued stub are prepended; the result is
wrapped per replace/redirect/key name with accumulated flags and tag. -/
def flowList (H : Handlers) (root : Node) (env : Env) (template : Bool) : Node :=
  match Node.Value root with
  | .seq rootList =>
    let pm := H.processMergesF root rootList env template
    let res : Val × NodeFlags :=
      if pm.process then
        match pm.merged with
        | .seq l =>
          let env :=
            if !pm.redirectPath.isEmpty then Env.RedirectOverwrite env pm.redirectPath
            else env
          let newList := elementPass H env pm.keyName l
          if pm.ismerged then
            (.seq newList, NodeFlags.union pm.flags { NodeFlags.empty with injected := true })
          else
            match pm.stub with
            | some stubN =>
              if !(Node.Flags root).injected then
                let newList :=
                  match Node.Value stubN with
                  | .seq m => (m.filter (fun v => (Node.Flags v).inject)) ++ newList
                  | _ => newList
                (.seq newList,
                 NodeFlags.union pm.flags { NodeFlags.empty with injected := true })
              else (.seq newList, pm.flags)
            | none => (.seq newList, pm.flags)
        | v => (v, pm.flags)
      else (pm.merged, pm.flags)
    let mergedVal := res.1
    let flags := res.2
    let keyRoot := if pm.keyName != "" then KeyNameNode root pm.keyName else root
    finishList (wrapListResult mergedVal keyRoot pm.replaced pm.redirectPath) flags pm.tag
  | _ => root

/-- Whether the post-content stub-override step of `_flow` applies (the
guard of flow.go source line 245). -/
def overrideApplies (root : Node) (env : Env) (merged shouldOverride : Bool) : Bool :=
  !merged && Node.StandardOverride root && shouldOverride && !env.noMerge

/-- The post-content stub-override step of `_flow` (source lines 245-266):
substitute a found stub value (unless DEFAULT-flagged or the node is
INJECTED), re-apply key name, replace/redirect/merged wrappings, and OR in
the OVERRIDDEN flags. -/
def overrideStep (root : Node) (env : Env) (merged : Bool) (keyName : String)
    (replace : Bool) (redirect : List String) (flags : NodeFlags)
    (shouldOverride : Bool) : Node :=
  if overrideApplies root env merged shouldOverride then
    match env.findInStubs env.stubPath with
    | some overridden =>
      if !(Node.Flags overridden).defaultF && !(Node.Flags root).injected then
        let r := (substituteNode overridden).1
        let r := if keyName != "" then KeyNameNode r keyName else r
        let r :=
          if replace then ReplaceNode (Node.Value r) r redirect
          else if !redirect.isEmpty then RedirectNode (Node.Value r) r redirect
          else if merged then MergedNode r
          else r
        AddFlags r (NodeFlags.Overridden flags)
      else root
    | none => root
  else root

/-- Source: `_flow` (flow.go lines 60-270): the per-node dispatcher.  A
replace-flagged node skips content rewriting; a merged non-expression node
is returned as-is; otherwise the node is routed by value kind, and
fall-through cases run the stub-override step. -/
def _flow (H : Handlers) (root : Node) (env : Env) (shouldOverride enforceTemplate : Bool) :
    Node :=
  let flags := Node.Flags root
  let replace := Node.ReplaceFlag root
  let redirect := Node.RedirectPath root
  let merged := Node.Merged root
  let keyName := Node.KeyName root
  let env := if !redirect.isEmpty then Env.RedirectOverwrite env redirect else env
  if replace then overrideStep root env merged keyName replace redirect flags shouldOverride
  else
    let isExpr := match Node.Value root with | .expr _ => true | _ => false
    if !isExpr && merged then root
    else
      match Node.Value root with
      | .map _ =>
        match H.isControl root env with
        | .error err => DynIssueNode env true root true true (NewIssue err)
        | .ok ctl =>
          let root2 := flowMap H root env (!ctl) enforceTemplate
          if !ctl then root2
          else
            match Node.Value root2 with
            | .map _ => root2
            | _ => overrideStep root2 env merged keyName replace redirect flags shouldOverride
      | .seq _ => flowList H root env enforceTemplate
      | .expr _ =>
        match H.exprCase root env shouldOverride enforceTemplate with
        | .ret n => n
        | .fall r rep => overrideStep r env merged keyName rep redirect flags shouldOverride
      | .str _ =>
        let fs := FlowString H root env
        let isE := match Node.Value fs.1 with | .expr _ => true | _ => false
        if isE then fs.1
        else overrideStep root env merged keyName replace redirect flags shouldOverride
      | _ => overrideStep root env merged keyName replace redirect flags shouldOverride

/-- Go `strings.HasPrefix(tag, "*")`, in character-list form. -/
def leadingStar (s : String) : Bool :=
  match s.data with
  | c :: _ => c == '*'
  | [] => false

/-- Go `tag[1:]`, in character-list form. -/
def dropFirst (s : String) : String := String.mk (s.data.drop 1)

def TAG_LOCAL : Nat := 1

def TAG_SCOPE_GLOBAL : Nat := 2

def TAG_SCOPE_STREAM : Nat := 4

/-- An entry of the tag registry. -/
structure TagEntry where
  name : String
  scope : Nat
  node : Node
  path : List String

/-- A tag redefinition conflict in the given scope. -/
def hasTagConflict (reg : List TagEntry) (tag : String) (scope : Nat) : Bool :=
  reg.any (fun e => e.name == tag && e.scope == scope)

/-- Modelled from the spec: `State.SetTag` enforces tag uniqueness per
scope (spec section 5): attempted redefinition yields an error and the
registry, otherwise append-only, is left unchanged. -/
def setTag (reg : List TagEntry) (tag : String) (node : Node) (path : List String)
    (scope : Nat) : Except String (List TagEntry) :=
  if hasTagConflict reg tag scope then .error ("duplicate tag " ++ tag)
  else .ok ({ name := tag, scope := scope, node := node, path := path } :: reg)

/-- Source: `flow` (flow.go lines 35-58): run `_flow`, then, when the
result is fully resolved and tagged, publish the tag with stream scope, or
global scope with the leading `*` stripped; a registry conflict annotates
the node with an issue and leaves the registry unchanged.  The run-global
registry is threaded explicitly. -/
def flow (H : Handlers) (root : Node) (env : Env) (reg : List TagEntry)
    (shouldOverride enforceTemplate : Bool) : Node × List TagEntry :=
  let node := _flow H root env shouldOverride enforceTemplate
  let tag := Node.Tag node
  if H.isResolvedNode node env && tag != "" then
    let glob := leadingStar tag
    let tag2 := if glob then dropFirst tag else tag
    let scope := TAG_LOCAL + (if glob then TAG_SCOPE_GLOBAL else TAG_SCOPE_STREAM)
    match setTag reg tag2 node env.path scope with
    | .ok reg2 => (node, reg2)
    | .error err =>
      let node :=
        match Node.Value node with
        | .null => ReplaceValue (Node.Value root) node
        | _ => node
      (IssueNode node true true (NewIssue err), reg)
  else (node, reg)

/-- One iteration range of the `for` control (source: the `iteration`
struct of dynaml/control/for.go).  The iterator is abstracted to the number
of entries it yields: only the enumeration order is at stake here; the
`current` cursor lives in the odometer state below. -/
structure Iteration where
  name : String
  index : String
  size : Nat
deriving DecidableEq, Repr

/-- Lexicographic order on character lists: the byte-wise order of Go
strings (UTF-8 byte order coincides with code-point order). -/
def charListLt : List Char → List Char → Bool
  | [], [] => false
  | [], _ :: _ => true
  | _ :: _, [] => false
  | c :: cs, d :: ds =>
    if c < d then true else if d < c then false else charListLt cs ds

/-- `a` strictly precedes `b` in Go string order. -/
def strLt (a b : String) : Bool := charListLt a.data b.data

/-- Go `strings.Compare`. -/
def strCompare (a b : String) : Int :=
  if strLt a b then -1 else if strLt b a then 1 else 0

/-- Source: `iterations.Less` -- `Less(i, j)` holds when range `i` has the
strictly larger name (ties broken by the larger index name): `sort.Sort`
with this order arranges ranges by descending name. -/
def iterLess (x y : Iteration) : Bool :=
  if strCompare x.name y.name != 0 then decide (strCompare x.name y.name > 0)
  else decide (strCompare x.index y.index > 0)

/-- The no-inversion order established by `sort.Sort(ranges)`: `a` may
precede `b` exactly when `Less(b, a)` is false. -/
def iterOrd (a b : Iteration) : Prop := iterLess b a = false

instance : DecidableRel iterOrd :=
  fun a b => decidable_of_iff (iterLess b a = false) Iff.rfl

/-- `sort.Sort(ranges)` with `iterations.Less`, modelled as an insertion
sort establishing the same no-inversion order (Go's sort is unstable; any
`Less`-sorted permutation is a faithful outcome). -/
def sortIterations (l : List Iteration) : List Iteration :=
  l.insertionSort iterOrd

/-- The all-zeroes start state of the iteration odometer (every
`iteration.current` starts at 0). -/
def zerosOf (bs : List Nat) : List Nat := bs.map (fun _ => 0)

/-- The increment sweep closing each pass of the `flowFor` evaluation loop
(source: the final `for i := 0; i <= len(ranges); i++` loop): digit 0 is
advanced first; a digit reaching its range length resets to 0 and carries
into the next digit; `none` once the sweep runs past the last digit
(`break outer`). -/
def incrState : List Nat → List Nat → Option (List Nat)
  | [], [] => none
  | b :: bs, c :: cs =>
    if c + 1 < b then some ((c + 1) :: cs)
    else (incrState bs cs).map (fun r => 0 :: r)
  | _, _ => none

/-- The list of all cursor states visited by the odometer, digit 0
fastest (closed form; the orbit theorems below prove it is exactly the
`incrState` trace from `zerosOf`). -/
def odoStates : List Nat → List (List Nat)
  | [] => [[]]
  | b :: bs => (odoStates bs).flatMap (fun t => (List.range b).map (fun c => c :: t))

/-- Lexicographic enumeration of cursor tuples, head digit most
significant. -/
def lexProd : List Nat → List (List Nat)
  | [] => [[]]
  | b :: bs => (List.range b).flatMap (fun c => (lexProd bs).map (fun t => c :: t))

/-- The `[a-zA-Z0-9_]` character class of the `namesyntax` pattern. -/
def isWordChar (c : Char) : Bool :=
  (c ≥ 'a' && c ≤ 'z') || (c ≥ 'A' && c ≤ 'Z') || (c ≥ '0' && c ≤ '9') || c == '_'

/-- Source: `namesyntax.Match` -- the pattern `[a-zA-Z0-9_]+` is not
anchored, so Go `regexp.Match` succeeds whenever the string contains at
least one character of the class anywhere. -/
def namesyntaxMatch (s : String) : Bool := s.data.any isWordChar

/-- Source: `checkName`; `none` means the name is accepted. -/
def checkName (kind n : String) : Option String :=
  if !namesyntaxMatch n then
    some ("invalid " ++ kind ++ " variable name " ++ n)
  else none

/-- The anchored reading of the name pattern, as the spec states it: the
whole non-empty name consists of word characters only. -/
def specNameValid (s : String) : Bool := s != "" && s.data.all isWordChar

/-- Source: `controlIteration` -- validate the range name and the index
name (defaulted to `index-<name>`), producing the iteration range. -/
def controlIteration (name index : String) (size : Nat) : Except String Iteration :=
  match checkName "range" name with
  | some e => .error e
  | none =>
    if index == "" then .ok { name := name, index := "index-" ++ name, size := size }
    else
      match checkName "index" index with
      | some e => .error e
      | none => .ok { name := name, index := index, size := size }

/-- The identity field of a list-of-map element under the default key name. -/
def nameOf (n : Node) : Option Val :=
  match Node.Value n with
  | .map m =>
    match lookupKey m "name" with
    | some v => some (Node.Value v)
    | none => none
  | _ => none

/-- Trivial collaborator instantiation used by concrete evaluations. -/
def trivH : Handlers := {}

def c4Root : Node := NewNode (.str "(( junk ))") "doc"

def c4H : Handlers := { parse := fun _ _ _ => .error "unparseable expression" }

def c5elem : Node := NewNode (.map [("name", NewNode (.str "n1") "doc")]) "doc"

def c5stubElem : Node :=
  AddFlags (NewNode (.map [("name", NewNode (.str "n1") "stub")]) "stub")
    { NodeFlags.empty with inject := true }

def c5pm : PMOut :=
  { merged := .seq [c5elem], process := true, replaced := false, ismerged := false,
    stub := some (NewNode (.seq [c5stubElem]) "stub") }

def c5H : Handlers := { processMergesF := fun _ _ _ _ => c5pm }

def c5Root : Node := NewNode (.seq [c5elem]) "doc"

def c1Root : Node := ReplaceNode (.str "x") (NewNode (.str "x") "doc") []

def c2Root : Node :=
  NewNode
    (.map [("a", NewNode (.str "x") "doc"),
           ("b", NewNode (.str "y") "doc")]) "doc"

def c2ListRoot : Node :=
  NewNode (.seq [UndefinedNode (NewNode (.str "x") "doc"), NewNode (.str "y") "doc"]) "doc"

def c3A : Iteration := { name := "a", index := "ia", size := 2 }

def c3B : Iteration := { name := "b", index := "ib", size := 2 }

def c6Root : Node := SetTag (NewNode (.str "v") "doc") "*g"

def c7Map : List (String × Node) :=
  [("<<", NewNode .null "doc"), ("<<<", NewNode .null "doc")]

def c7Root : Node := NewNode (.map c7Map) "doc"

@[simp]
theorem Value_AddFlags (n : Node) (f : NodeFlags) : Node.Value (AddFlags n f) = Node.Value n := by
  cases n with | mk v s a => rfl

@[simp]
theorem Value_SetTag (n : Node) (t : String) : Node.Value (SetTag n t) = Node.Value n := by
  cases n with | mk v s a => rfl

@[simp]
theorem Value_IssueNode (n : Node) (e f : Bool) (i : Issue) :
    Node.Value (IssueNode n e f i) = Node.Value n := by
  cases n with | mk v s a => rfl

@[simp]
theorem Value_KeyNameNode (n : Node) (k : String) :
    Node.Value (KeyNameNode n k) = Node.Value n := by
  cases n with | mk v s a => rfl

@[simp]
theorem Value_MergedNode (n : Node) : Node.Value (MergedNode n) = Node.Value n := by
  cases n with | mk v s a => rfl

@[simp]
theorem Value_ReplaceNode (v : Val) (n : Node) (r : List String) :
    Node.Value (ReplaceNode v n r) = v := by
  cases n with | mk w s a => rfl

@[simp]
theorem Value_RedirectNode (v : Val) (n : Node) (r : List String) :
    Node.Value (RedirectNode v n r) = v := by
  cases n with | mk w s a => rfl

@[simp]
theorem Value_SubstituteNode (v : Val) (n : Node) :
    Node.Value (SubstituteNode v n) = v := by
  cases n with | mk w s a => rfl

theorem Value_updateNode (n : Node) (f : NodeFlags) (t : String) :
    Node.Value (updateNode n f t) = Node.Value n := by
  unfold updateNode
  dsimp only
  split_ifs <;> simp

@[simp]
theorem Value_wrapMapResult (v : Val) (n : Node) (r : Bool) (rd : List String) :
    Node.Value (wrapMapResult v n r rd) = v := by
  unfold wrapMapResult
  split_ifs <;> simp

@[simp]
theorem Value_wrapListResult (v : Val) (n : Node) (r : Bool) (rd : List String) :
    Node.Value (wrapListResult v n r rd) = v := by
  unfold wrapListResult
  split_ifs <;> simp

@[simp]
theorem Value_finishList (n : Node) (f : NodeFlags) (t : String) :
    Node.Value (finishList n f t) = Node.Value n := by
  unfold finishList
  split_ifs <;> simp

@[simp]
theorem Undefined_AddFlags (n : Node) (f : NodeFlags) :
    Node.Undefined (AddFlags n f) = Node.Undefined n := by
  cases n with | mk v s a => rfl

theorem Undefined_substituteNode (n : Node) (h : Node.Undefined n = false) :
    Node.Undefined ((substituteNode n).1) = false := by
  unfold substituteNode
  cases hv : Node.Value n
  case tmpl p b o =>
    dsimp only
    split
    · rfl
    · exact h
  all_goals exact h

theorem IssueOf_IssueNode (n : Node) (e f : Bool) (i : Issue) (h : Issue.msg i ≠ "") :
    Node.IssueOf (IssueNode n e f i) = i := by
  cases n with | mk v s a =>
    simp [IssueNode, Node.IssueOf, Node.ann, Annot.AddIssue, h]

theorem HasError_IssueNode (n : Node) (e f : Bool) (i : Issue) :
    Node.HasError (IssueNode n e f i) = e := by
  cases n with | mk v s a => rfl

theorem replace_implies_Merged (root : Node) (h : Node.ReplaceFlag root = true) :
    Node.Merged root = true := by
  cases root with | mk v s a =>
    simp [Node.ReplaceFlag, Node.ann] at h
    simp [Node.Merged, Node.ann, Annot.Merged, h]

theorem redirect_implies_Merged (root : Node) (h : (Node.RedirectPath root).isEmpty = false) :
    Node.Merged root = true := by
  cases root with | mk v s a =>
    simp [Node.RedirectPath, Node.ann] at h
    simp [Node.Merged, Node.ann, Annot.Merged, h]

theorem overrideStep_not_applies (root : Node) (env : Env) (merged : Bool) (keyName : String)
    (replace : Bool) (redirect : List String) (flags : NodeFlags) (sO : Bool)
    (h : overrideApplies root env merged sO = false) :
    overrideStep root env merged keyName replace redirect flags sO = root := by
  unfold overrideStep
  simp [h]

theorem overrideStep_stub_none (root : Node) (env : Env) (merged : Bool) (keyName : String)
    (replace : Bool) (redirect : List String) (flags : NodeFlags) (sO : Bool)
    (h : env.findInStubs env.stubPath = none) :
    overrideStep root env merged keyName replace redirect flags sO = root := by
  unfold overrideStep
  split
  · rw [h]
  · rfl

/-- C1: for every node whose `replace` flag is set, the dispatcher skips
content rewriting and the post-content stub-override step never
substitutes a stub value: `_flow` returns the node unchanged, for every
stub environment and collaborator set, so the value is determined by the
document alone -- and, the node being returned verbatim, the same holds on
every subsequent pass. -/
theorem c1_replace_skips_stub_override (H : Handlers) (root : Node) (env : Env)
    (sO eT : Bool) (h : Node.ReplaceFlag root = true) :
    _flow H root env sO eT = root := by
  have hm : Node.Merged root = true := replace_implies_Merged root h
  unfold _flow
  rw [h]
  simp only [if_true]
  apply overrideStep_not_applies
  simp [overrideApplies, hm]

/-- Witness for C1 at a concrete replace-flagged node. -/
theorem c1_replace_skips_stub_override_witness :
    Node.ReplaceFlag c1Root = true ∧ _flow trivH c1Root {} true false = c1Root :=
  ⟨rfl, c1_replace_skips_stub_override trivH c1Root {} true false rfl⟩

/-- C9: `Merged()` reports true not only when the merged annotation is set,
but also when the replace flag is set or a non-empty redirect path is
present; consequently every replaced or redirected node fails the
stub-override guard of the dispatcher and is exempt from stub override. -/
theorem c9_replace_redirect_treated_as_merged :
    (∀ a : Annot, Annot.Merged (Annot.SetReplaceFlag a) = true) ∧
    (∀ (a : Annot) (p : List String), p ≠ [] → Annot.Merged (Annot.SetRedirectPath a p) = true) ∧
    (∀ (a : Annot), Annot.Merged a = (a.merged || a.replace || !a.redirectPath.isEmpty)) ∧
    (∀ (root : Node) (env : Env) (sO : Bool),
      Node.ReplaceFlag root = true ∨ (Node.RedirectPath root).isEmpty = false →
      overrideApplies root env (Node.Merged root) sO = false) := by
  refine ⟨?_, ?_, fun a => rfl, ?_⟩
  · intro a; simp [Annot.Merged, Annot.SetReplaceFlag]
  · intro a p hp
    simp [Annot.Merged, Annot.SetRedirectPath, hp]
  · intro root env sO h
    have hm : Node.Merged root = true := by
      rcases h with h | h
      · exact replace_implies_Merged root h
      · exact redirect_implies_Merged root h
    simp [overrideApplies, hm]

/-- Witness for C9 at a concrete replace-flagged annotation and node. -/
theorem c9_replace_redirect_treated_as_merged_witness :
    Annot.Merged (Annot.SetReplaceFlag {}) = true ∧
    ((["x"] : List String) ≠ [] ∧ Annot.Merged (Annot.SetRedirectPath {} ["x"]) = true) ∧
    (Node.ReplaceFlag c1Root = true ∧
      overrideApplies c1Root {} (Node.Merged c1Root) true = false) :=
  ⟨c9_replace_redirect_treated_as_merged.1 {},
   ⟨by decide, c9_replace_redirect_treated_as_merged.2.1 {} ["x"] (by decide)⟩,
   ⟨rfl, c9_replace_redirect_treated_as_merged.2.2.2 c1Root {} true (Or.inl rfl)⟩⟩

/-- C7: a map carrying both the `<<` merge key and the alternative merge
key is rejected immediately: `flowMap` returns the node annotated with the
`multiple merge keys not allowed` issue, its map value untouched, with
neither merge directive processed. -/
theorem c7_multiple_merge_keys (H : Handlers) (root : Node) (env : Env) (sO tm : Bool)
    (rootMap : List (String × Node)) (mv : Node)
    (h1 : Node.Value root = .map rootMap)
    (h2 : lookupKey rootMap "<<" = some mv)
    (h3 : (lookupKey rootMap MERGEKEY).isSome = true) :
    flowMap H root env sO tm = IssueNode root true true (NewIssue "multiple merge keys not allowed") ∧
    Node.Value (flowMap H root env sO tm) = Node.Value root ∧
    Issue.msg (Node.IssueOf (flowMap H root env sO tm)) = "multiple merge keys not allowed" := by
  have heq : flowMap H root env sO tm
      = IssueNode root true true (NewIssue "multiple merge keys not allowed") := by
    unfold flowMap
    rw [h1]
    simp only []
    rw [h2]
    simp [h3]
  refine ⟨heq, ?_, ?_⟩
  · rw [heq]; simp
  · rw [heq, IssueOf_IssueNode]
    · rfl
    · simp [NewIssue, Issue.msg]

/-- Witness for C7 at a concrete map containing `<<` and `<<<`. -/
theorem c7_multiple_merge_keys_witness :
    Node.Value c7Root = .map c7Map ∧
    (lookupKey c7Map MERGEKEY).isSome = true ∧
    flowMap trivH c7Root {} true false
      = IssueNode c7Root true true (NewIssue "multiple merge keys not allowed") :=
  ⟨rfl, rfl,
   (c7_multiple_merge_keys trivH c7Root {} true false c7Map (NewNode .null "doc")
     rfl rfl rfl).1⟩

/-- C4 as amended: when the DSL parse of an embedded expression fails,
`FlowString` returns the original node unchanged together with the error,
and the dispatcher discards the error: the flowed node keeps its original
scalar value but no issue is attached to it (here with no stub backing the
path, so the fall-through override step also leaves the node untouched). -/
theorem c4_parse_failure_keeps_scalar (H : Handlers) (root : Node) (env : Env)
    (s sub err : String) (sO eT : Bool)
    (hv : Node.Value root = .str s)
    (hre : Node.RedirectPath root = [])
    (he : EmbeddedDynaml root = some sub)
    (hp : H.parse sub env.path env.stubPath = .error err)
    (hs : env.findInStubs env.stubPath = none) :
    FlowString H root env = (root, some err) ∧ _flow H root env sO eT = root := by
  have hfs : FlowString H root env = (root, some err) := by
    unfold FlowString
    rw [he]
    dsimp only
    rw [hp]
  refine ⟨hfs, ?_⟩
  unfold _flow
  rw [hre]
  simp only [List.isEmpty_nil, Bool.not_true, if_false, Bool.false_eq_true]
  by_cases hrep : Node.ReplaceFlag root = true
  · rw [hrep]
    simp only [if_true]
    exact overrideStep_not_applies _ _ _ _ _ _ _ _
      (by simp [overrideApplies, replace_implies_Merged root hrep])
  · rw [Bool.not_eq_true] at hrep
    rw [hrep]
    simp only [Bool.false_eq_true, if_false]
    rw [hv]
    simp only []
    by_cases hm : Node.Merged root = true
    · simp [hm]
    · rw [Bool.not_eq_true] at hm
      rw [hm]
      simp only [Bool.not_false, Bool.true_and, Bool.false_eq_true, if_false]
      rw [hfs]
      simp only []
      rw [hv]
      simp only []
      exact overrideStep_stub_none _ _ _ _ _ _ _ _ hs

/-- Witness for C4 at the concrete unparseable scalar. -/
theorem c4_parse_failure_keeps_scalar_witness :
    Node.Value c4Root = .str "(( junk ))" ∧
    EmbeddedDynaml c4Root = some " junk " ∧
    c4H.parse " junk " [] [] = .error "unparseable expression" ∧
    FlowString c4H c4Root {} = (c4Root, some "unparseable expression") ∧
    _flow c4H c4Root {} true false = c4Root :=
  ⟨rfl, rfl, rfl,
   (c4_parse_failure_keeps_scalar c4H c4Root {} "(( junk ))" " junk "
     "unparseable expression" true false rfl rfl rfl rfl rfl).1,
   (c4_parse_failure_keeps_scalar c4H c4Root {} "(( junk ))" " junk "
     "unparseable expression" true false rfl rfl rfl rfl rfl).2⟩

/-- C4 counterexample to the claim as stated: at this scalar whose embedded
dynaml fails to parse, the flowed node carries NO issue -- the parse error
is discarded by the dispatcher, the node is returned entirely unchanged. -/
theorem c4_parse_failure_no_issue_counterexample :
    EmbeddedDynaml c4Root = some " junk " ∧
    c4H.parse " junk " [] [] = .error "unparseable expression" ∧
    _flow c4H c4Root {} true false = c4Root ∧
    Node.IssueOf (_flow c4H c4Root {} true false) = EmptyIssue ∧
    Issue.msg (Node.IssueOf (_flow c4H c4Root {} true false)) = "" :=
  ⟨rfl, rfl, rfl, rfl, rfl⟩

/-- C8: the `for` control's name check is NOT anchored: `namesyntax.Match`
with pattern `[a-zA-Z0-9_]+` accepts any string containing one word
character anywhere, so `checkName` accepts the name `a-b` (and
`controlIteration` builds its range) although the name does not consist of
word characters only -- contradicting the pattern displayed by its own
error message. -/
theorem c8_name_check_not_anchored :
    checkName "range" "a-b" = none ∧
    specNameValid "a-b" = false ∧
    controlIteration "a-b" "" 3 = .ok { name := "a-b", index := "index-a-b", size := 3 } ∧
    checkName "range" "" = some "invalid range variable name " :=
  ⟨rfl, by decide, rfl, rfl⟩

/-- C5 as amended: when no merge happened for the list (`ismerged` is
false) and the node is not yet INJECTED, list-flow stub injection prepends
ALL stub-side INJECT-flagged elements to the element-pass result -- with no
absence check under the key-name identity, so an element already present is
injected nevertheless. -/
theorem c5_stub_injection_prepends_all (H : Handlers) (root : Node) (env : Env) (tm : Bool)
    (rootList : List Node) (stubN : Node) (sl l : List Node)
    (hv : Node.Value root = .seq rootList)
    (hproc : (H.processMergesF root rootList env tm).process = true)
    (hm : (H.processMergesF root rootList env tm).merged = .seq l)
    (hism : (H.processMergesF root rootList env tm).ismerged = false)
    (hstub : (H.processMergesF root rootList env tm).stub = some stubN)
    (hsv : Node.Value stubN = .seq sl)
    (hinj : (Node.Flags root).injected = false) :
    Node.Value (flowList H root env tm) =
      .seq ((sl.filter (fun v => (Node.Flags v).inject)) ++
        elementPass H
          (if !((H.processMergesF root rootList env tm).redirectPath).isEmpty then
            Env.RedirectOverwrite env (H.processMergesF root rootList env tm).redirectPath
           else env)
          (H.processMergesF root rootList env tm).keyName l) := by
  unfold flowList
  rw [hv]
  dsimp only
  rw [hproc, hm]
  dsimp only
  rw [hism, hstub]
  dsimp only
  rw [hinj, hsv]
  dsimp only
  rw [Value_finishList, Value_wrapListResult]
  simp

/-- Witness for C5 at the concrete configuration below. -/
theorem c5_stub_injection_prepends_all_witness :
    Node.Value c5Root = .seq [c5elem] ∧
    (c5H.processMergesF c5Root [c5elem] {} false).ismerged = false ∧
    Node.Value (flowList c5H c5Root {} false) =
      .seq (([c5stubElem].filter (fun v => (Node.Flags v).inject)) ++
        elementPass c5H
          (if !((c5H.processMergesF c5Root [c5elem] {} false).redirectPath).isEmpty then
            Env.RedirectOverwrite {} (c5H.processMergesF c5Root [c5elem] {} false).redirectPath
           else {})
          (c5H.processMergesF c5Root [c5elem] {} false).keyName [c5elem]) :=
  ⟨rfl, rfl,
   c5_stub_injection_prepends_all c5H c5Root {} false [c5elem]
     (NewNode (.seq [c5stubElem]) "stub") [c5stubElem] [c5elem]
     rfl rfl rfl rfl rfl rfl rfl⟩

theorem dup_tag_msg_ne (t : String) : ("duplicate tag " ++ t) ≠ "" := by
  intro h
  have h2 := congrArg String.data h
  rw [String.data_append] at h2
  simp at h2

/-- C6: when the flowed node is fully resolved and carries a tag, the
dispatcher publishes it to the tag registry -- with stream scope, or with
global scope and the leading `*` stripped -- and a registry conflict
annotates the returned node with an issue while leaving the registry
unchanged rather than overwriting the entry. -/
theorem c6_tag_publish (H : Handlers) (root : Node) (env : Env) (reg : List TagEntry)
    (sO eT : Bool) (t : String)
    (hres : H.isResolvedNode (_flow H root env sO eT) env = true)
    (htag : Node.Tag (_flow H root env sO eT) = t)
    (hne : t ≠ "") :
    (hasTagConflict reg (if leadingStar t then dropFirst t else t)
        (TAG_LOCAL + (if leadingStar t then TAG_SCOPE_GLOBAL else TAG_SCOPE_STREAM)) = false →
      flow H root env reg sO eT =
        (_flow H root env sO eT,
         { name := if leadingStar t then dropFirst t else t,
           scope := TAG_LOCAL + (if leadingStar t then TAG_SCOPE_GLOBAL else TAG_SCOPE_STREAM),
           node := _flow H root env sO eT, path := env.path } :: reg)) ∧
    (hasTagConflict reg (if leadingStar t then dropFirst t else t)
        (TAG_LOCAL + (if leadingStar t then TAG_SCOPE_GLOBAL else TAG_SCOPE_STREAM)) = true →
      (flow H root env reg sO eT).2 = reg ∧
      Node.HasError (flow H root env reg sO eT).1 = true ∧
      Issue.msg (Node.IssueOf (flow H root env reg sO eT).1) =
        "duplicate tag " ++ (if leadingStar t then dropFirst t else t)) := by
  have hcond : (Node.Tag (_flow H root env sO eT) != "") = true := by
    rw [htag]
    simp [hne]
  have hflow : flow H root env reg sO eT =
      (let node := _flow H root env sO eT
       let tag2 := if leadingStar t then dropFirst t else t
       let scope := TAG_LOCAL + (if leadingStar t then TAG_SCOPE_GLOBAL else TAG_SCOPE_STREAM)
       match setTag reg tag2 node env.path scope with
       | .ok reg2 => (node, reg2)
       | .error err =>
         let node :=
           match Node.Value node with
           | .null => ReplaceValue (Node.Value root) node
           | _ => node
         (IssueNode node true true (NewIssue err), reg)) := by
    unfold flow
    dsimp only
    rw [hres, hcond, htag]
    rfl
  constructor
  · intro hc
    rw [hflow]
    dsimp only
    unfold setTag
    rw [hc]
    rfl
  · intro hc
    rw [hflow]
    dsimp only
    unfold setTag
    rw [hc]
    simp only [reduceIte]
    try dsimp only
    refine ⟨trivial, HasError_IssueNode _ _ _ _, ?_⟩
    rw [IssueOf_IssueNode]
    · rfl
    · exact dup_tag_msg_ne _

/-- Witness for C6: a concrete resolved node carrying the global tag `*g`
published into an empty registry. -/
theorem c6_tag_publish_witness :
    Node.Tag (_flow trivH c6Root {} true false) = "*g" ∧
    ("*g" : String) ≠ "" ∧
    flow trivH c6Root {} [] true false =
      (_flow trivH c6Root {} true false,
       [{ name := if leadingStar "*g" then dropFirst "*g" else "*g",
          scope := TAG_LOCAL + (if leadingStar "*g" then TAG_SCOPE_GLOBAL else TAG_SCOPE_STREAM),
          node := _flow trivH c6Root {} true false, path := [] }]) :=
  ⟨rfl, by decide,
   (c6_tag_publish trivH c6Root {} [] true false "*g" rfl rfl (by decide)).1 rfl⟩

theorem mem_insertKey (m : List (String × Node)) (k : String) (v : Node) :
    ∀ kv ∈ insertKey m k v, kv = (k, v) ∨ kv ∈ m := by
  induction m with
  | nil =>
    intro kv h
    simp only [insertKey, List.mem_singleton] at h
    exact Or.inl h
  | cons p rest ih =>
    intro kv h
    rcases p with ⟨k', v'⟩
    simp only [insertKey] at h
    by_cases hk : (k' == k) = true
    · rw [if_pos hk] at h
      rcases List.mem_cons.mp h with h2 | h2
      · exact Or.inl h2
      · exact Or.inr (List.mem_cons_of_mem _ h2)
    · rw [if_neg hk] at h
      rcases List.mem_cons.mp h with h2 | h2
      · exact Or.inr (h2 ▸ List.mem_cons_self _ _)
      · rcases ih kv h2 with h3 | h3
        · exact Or.inl h3
        · exact Or.inr (List.mem_cons_of_mem _ h3)

theorem foldl_insertKey_mem (l : List (String × Node)) :
    ∀ (acc : List (String × Node)) kv,
      kv ∈ l.foldl (fun a p => insertKey a p.1 p.2) acc → kv ∈ acc ∨ kv ∈ l := by
  induction l with
  | nil => intro acc kv h; exact Or.inl h
  | cons p rest ih =>
    intro acc kv h
    simp only [List.foldl_cons] at h
    rcases ih _ _ h with h2 | h2
    · rcases mem_insertKey _ _ _ _ h2 with h3 | h3
      · exact Or.inr (by simp [h3])
      · exact Or.inl h3
    · exact Or.inr (List.mem_cons_of_mem _ h2)

theorem foldl_preserve {α β : Type _} (f : β → α → β) (P : β → Prop) :
    ∀ (l : List α) (init : β), P init → (∀ b a, a ∈ l → P b → P (f b a)) →
      P (l.foldl f init) := by
  intro l
  induction l with
  | nil => intro init h _; exact h
  | cons a l ih =>
    intro init h hf
    exact ih _ (hf _ _ (List.mem_cons_self _ _) h)
      (fun b x hx => hf b x (List.mem_cons_of_mem _ hx))

theorem elementPass_undefined (H : Handlers) (env : Env) (kn : String) (l : List Node) :
    ∀ v ∈ elementPass H env kn l, Node.Undefined v = false := by
  unfold elementPass
  refine foldl_preserve _ (fun acc => ∀ v ∈ acc.1, Node.Undefined v = false) l ([], 0)
    (by simp) ?_
  intro b a _ hP
  dsimp only
  by_cases hu : (!(Node.Undefined (if (H.stepNameF b.2 a kn env).2 then
      H.flowSub a (Env.WithPath env (H.stepNameF b.2 a kn env).1) false false else a))) = true
  · rw [if_pos hu]
    intro v hv
    rcases List.mem_append.mp hv with h2 | h2
    · exact hP v h2
    · rw [List.mem_singleton.mp h2]
      simpa using hu
  · rw [if_neg hu]
    exact hP

theorem mapEntryLoop_undefined (H : Handlers) (rootMap : List (String × Node))
    (mergekey : String) (st : MergeState) (sO processed : Bool) (env : Env)
    (hnm : ∀ kv ∈ st.newMap, Node.Undefined kv.2 = false) :
    ∀ kv ∈ (mapEntryLoop H rootMap mergekey st sO processed env).1,
      Node.Undefined kv.2 = false := by
  unfold mapEntryLoop
  refine foldl_preserve _
    (fun acc : List (String × Node) × List (String × Node) =>
      ∀ kv ∈ acc.1, Node.Undefined kv.2 = false)
    (GetSortedKeys rootMap) (st.newMap, []) hnm ?_
  intro b key _ hP
  dsimp only
  cases hval : (if key == mergekey then st.mergeval
      else
        match lookupKey rootMap key with
        | some v =>
          some (if processed then
                  H.flowSub v (Env.WithPath env key) sO (H.requireTemplate key env)
                else v)
        | none => none) with
  | none => exact hP
  | some val =>
    dsimp only
    by_cases hu : (!(Node.Undefined val)) = true
    · rw [if_pos hu]
      intro kv hkv
      rcases mem_insertKey _ _ _ _ hkv with h2 | h2
      · rw [h2]
        dsimp only
        split
        · simpa using hu
        · simpa using hu
      · exact hP kv h2
    · rw [if_neg hu]
      exact hP

theorem mapInjection_undefined (stub : Option Node) (flags : NodeFlags)
    (newMap : List (String × Node))
    (hstub : ∀ s m, stub = some s → Node.Value s = .map m →
      ∀ kv ∈ m, (Node.Flags kv.2).inject = true → Node.Undefined kv.2 = false)
    (hnm : ∀ kv ∈ newMap, Node.Undefined kv.2 = false) :
    ∀ kv ∈ mapInjection stub flags newMap, Node.Undefined kv.2 = false := by
  unfold mapInjection
  cases hs : stub with
  | none => exact hnm
  | some stubN =>
    dsimp only
    by_cases hf : (!flags.injected) = true
    · rw [if_pos hf]
      cases hv : Node.Value stubN with
      | map m =>
        refine foldl_preserve _ (fun nm => ∀ kv ∈ nm, Node.Undefined kv.2 = false)
          m newMap hnm ?_
        intro nm kv hkvm hP
        dsimp only
        by_cases hc : ((Node.Flags kv.2).inject && (lookupKey nm kv.1).isNone) = true
        · rw [if_pos hc]
          intro kv' hkv'
          rcases mem_insertKey _ _ _ _ hkv' with h2 | h2
          · rw [h2]
            dsimp only
            rw [Undefined_AddFlags]
            exact Undefined_substituteNode _
              (hstub stubN m hs hv kv hkvm (Bool.and_elim_left hc))
          · exact hP kv' h2
        · rw [if_neg hc]
          exact hP
      | str s => exact hnm
      | intV i => exact hnm
      | boolV b => exact hnm
      | null => exact hnm
      | seq l => exact hnm
      | expr e => exact hnm
      | tmpl p b o => exact hnm
    · rw [if_neg hf]
      exact hnm

theorem flowMapMerge_newMap (H : Handlers) (root : Node) (env : Env) (tm : Bool)
    (flags0 : NodeFlags) (tag0 : String) (rd0 : List String) (rp0 : Bool) (mv : Node)
    (st : MergeState)
    (hok : flowMapMerge H root env tm flags0 tag0 rd0 rp0 mv = .ok st)
    (hseed : ∀ bm, Node.Value (H.flowUnder mv env false false) = .map bm →
      ∀ kv ∈ bm, Node.Undefined kv.2 = false) :
    ∀ kv ∈ st.newMap, Node.Undefined kv.2 = false := by
  unfold flowMapMerge at hok
  dsimp only at hok
  by_cases hu : Node.Undefined (H.flowUnder mv env false false) = true
  · rw [if_pos hu] at hok
    exact absurd hok (by simp)
  · rw [if_neg hu] at hok
    cases hv : Node.Value (H.flowUnder mv env false false) with
    | expr e =>
      rw [hv] at hok
      dsimp only at hok
      rcases hm : asTemplate e tm with _ | m <;> rw [hm] at hok <;> dsimp only at hok
      · split at hok <;>
          (rcases Except.ok.inj hok with h <;> subst h <;> intro kv hkv <;> simp at hkv)
      · split at hok
        · rcases Except.ok.inj hok with h
          subst h
          intro kv hkv
          simp at hkv
        · split at hok <;>
            (rcases Except.ok.inj hok with h <;> subst h <;> intro kv hkv <;> simp at hkv)
    | map bm =>
      rw [hv] at hok
      dsimp only at hok
      split at hok <;> rcases Except.ok.inj hok with h <;> subst h <;>
        (intro kv hkv
         dsimp only at hkv
         rcases foldl_insertKey_mem _ _ _ hkv with h2 | h2
         · simp at h2
         · exact hseed bm hv kv h2)
    | str s =>
      rw [hv] at hok
      dsimp only at hok
      split at hok <;> rcases Except.ok.inj hok with h <;> subst h <;>
        (intro kv hkv; simp at hkv)
    | intV i =>
      rw [hv] at hok
      dsimp only at hok
      split at hok <;> rcases Except.ok.inj hok with h <;> subst h <;>
        (intro kv hkv; simp at hkv)
    | boolV b =>
      rw [hv] at hok
      dsimp only at hok
      split at hok <;> rcases Except.ok.inj hok with h <;> subst h <;>
        (intro kv hkv; simp at hkv)
    | null =>
      rw [hv] at hok
      dsimp only at hok
      split at hok <;> rcases Except.ok.inj hok with h <;> subst h <;>
        (intro kv hkv; simp at hkv)
    | seq l =>
      rw [hv] at hok
      dsimp only at hok
      split at hok <;> rcases Except.ok.inj hok with h <;> subst h <;>
        (intro kv hkv; simp at hkv)
    | tmpl p b o =>
      rw [hv] at hok
      dsimp only at hok
      split at hok <;> rcases Except.ok.inj hok with h <;> subst h <;>
        (intro kv hkv; simp at hkv)

theorem flowMapBody_undefined (H : Handlers) (root : Node)
    (rootMap : List (String × Node)) (stub : Option Node) (issue : Issue)
    (failed : Bool) (mergekey : String) (st : MergeState) (sO : Bool)
    (hnm : ∀ kv ∈ st.newMap, Node.Undefined kv.2 = false)
    (hctl : ∀ n u e, (H.flowControlF n u e).1 = n)
    (hstub : ∀ s m, stub = some s → Node.Value s = .map m →
      ∀ kv ∈ m, (Node.Flags kv.2).inject = true → Node.Undefined kv.2 = false) :
    ∀ entries,
      Node.Value (flowMapBody H root rootMap stub issue failed mergekey st sO) = .map entries →
      ∀ kv ∈ entries, Node.Undefined kv.2 = false := by
  intro entries hout
  unfold flowMapBody at hout
  dsimp only at hout
  rw [Value_updateNode] at hout
  have hloop : ∀ (processed : Bool), ∀ kv ∈ (if st.addEntries then
      mapEntryLoop H rootMap mergekey st sO processed st.env
      else (st.newMap, [])).1, Node.Undefined kv.2 = false := by
    intro processed
    split
    · exact mapEntryLoop_undefined H rootMap mergekey st sO _ st.env hnm
    · exact hnm
  have hnm2 : ∀ (processed : Bool), ∀ kv ∈ (if st.mergedB then
      (if st.addEntries then mapEntryLoop H rootMap mergekey st sO processed st.env
        else (st.newMap, [])).1
      else mapInjection stub st.flags
        (if st.addEntries then mapEntryLoop H rootMap mergekey st sO processed st.env
          else (st.newMap, [])).1), Node.Undefined kv.2 = false := by
    intro processed
    split
    · exact hloop processed
    · exact mapInjection_undefined stub st.flags _ hstub (hloop processed)
  split at hout
  · rw [Value_IssueNode, Value_wrapMapResult] at hout
    split at hout
    · exact absurd hout (by simp [NewTemplateValue])
    · rcases Val.map.inj hout with h
      subst h
      exact hnm2 _
  · split at hout
    · rw [Value_IssueNode, Value_wrapMapResult] at hout
      split at hout
      · exact absurd hout (by simp [NewTemplateValue])
      · rcases Val.map.inj hout with h
        subst h
        exact hnm2 _
    · rw [hctl, Value_wrapMapResult] at hout
      split at hout
      · exact absurd hout (by simp [NewTemplateValue])
      · rcases Val.map.inj hout with h
        subst h
        exact hnm2 _

theorem flowMapMerge_error (H : Handlers) (root : Node) (env : Env) (tm : Bool)
    (flags0 : NodeFlags) (tag0 : String) (rd0 : List String) (rp0 : Bool) (mv : Node)
    (n : Node)
    (h : flowMapMerge H root env tm flags0 tag0 rd0 rp0 mv = .error n) :
    n = UndefinedNode root := by
  unfold flowMapMerge at h
  dsimp only at h
  split at h
  · exact (Except.error.inj h).symm
  · repeat' split at h
    all_goals exact absurd h (by simp)

theorem get_inherited_flags_stub (env : Env) :
    (get_inherited_flags env).2 = env.findInStubs env.stubPath := by
  unfold get_inherited_flags
  cases env.findInStubs env.stubPath <;> rfl

/-- C2: no node flagged `undefined` appears in an output container.  Map
flow (with clean input entries, a control dispatch that returns non-control
maps unchanged, a merge base and INJECT-flagged stub entries free of the
undefined flag) emits no undefined entry: every child whose flow result is
undefined is diverted away from the result map.  List flow likewise drops
every element whose flow result is undefined (INJECT-flagged stub
elements assumed clean). -/
theorem c2_undefined_nodes_dropped :
    (∀ (H : Handlers) (root : Node) (env : Env) (sO tm : Bool)
       (rootMap : List (String × Node)),
      Node.Value root = .map rootMap →
      (∀ kv ∈ rootMap, Node.Undefined kv.2 = false) →
      (∀ n u e, (H.flowControlF n u e).1 = n) →
      (∀ mv bm, (lookupKey rootMap "<<" = some mv ∨ lookupKey rootMap MERGEKEY = some mv) →
        Node.Value (H.flowUnder mv (Env.WithScope env rootMap) false false) = .map bm →
        ∀ kv ∈ bm, Node.Undefined kv.2 = false) →
      (∀ s m, env.findInStubs env.stubPath = some s → Node.Value s = .map m →
        ∀ kv ∈ m, (Node.Flags kv.2).inject = true → Node.Undefined kv.2 = false) →
      ∀ entries, Node.Value (flowMap H root env sO tm) = .map entries →
        ∀ kv ∈ entries, Node.Undefined kv.2 = false) ∧
    (∀ (H : Handlers) (root : Node) (env : Env) (tm : Bool) (rootList l : List Node),
      Node.Value root = .seq rootList →
      (H.processMergesF root rootList env tm).process = true →
      (H.processMergesF root rootList env tm).merged = .seq l →
      (∀ s m, (H.processMergesF root rootList env tm).stub = some s →
        Node.Value s = .seq m →
        ∀ v ∈ m, (Node.Flags v).inject = true → Node.Undefined v = false) →
      ∀ out, Node.Value (flowList H root env tm) = .seq out →
        ∀ v ∈ out, Node.Undefined v = false) := by
  constructor
  · intro H root env sO tm rootMap hv hin hctl hseed hstub entries hout
    have hstub2 : ∀ s m, (get_inherited_flags env).2 = some s → Node.Value s = .map m →
        ∀ kv ∈ m, (Node.Flags kv.2).inject = true → Node.Undefined kv.2 = false := by
      intro s m hsm
      rw [get_inherited_flags_stub] at hsm
      exact hstub s m hsm
    unfold flowMap at hout
    rw [hv] at hout
    dsimp only at hout
    split at hout
    case _ mv heq =>
      split at hout
      · rw [Value_IssueNode, hv] at hout
        rcases Val.map.inj hout with h
        subst h
        exact hin
      · split at hout
        case _ n heqm =>
          rw [flowMapMerge_error H root _ tm _ _ _ _ mv n heqm] at hout
          have : Node.Value (UndefinedNode root) = Node.Value root := by
            cases root with | mk v s a => rfl
          rw [this, hv] at hout
          rcases Val.map.inj hout with h
          subst h
          exact hin
        case _ st heqm =>
          exact flowMapBody_undefined H root rootMap _ _ _ _ st sO
            (flowMapMerge_newMap H root _ tm _ _ _ _ mv st heqm
              (fun bm hb => hseed mv bm (Or.inl heq) hb))
            hctl hstub2 entries hout
    case _ heq =>
      split at hout
      case _ mv heq2 =>
        split at hout
        case _ n heqm =>
          rw [flowMapMerge_error H root _ tm _ _ _ _ mv n heqm] at hout
          have : Node.Value (UndefinedNode root) = Node.Value root := by
            cases root with | mk v s a => rfl
          rw [this, hv] at hout
          rcases Val.map.inj hout with h
          subst h
          exact hin
        case _ st heqm =>
          exact flowMapBody_undefined H root rootMap _ _ _ _ st sO
            (flowMapMerge_newMap H root _ tm _ _ _ _ mv st heqm
              (fun bm hb => hseed mv bm (Or.inr heq2) hb))
            hctl hstub2 entries hout
      case _ heq2 =>
        refine flowMapBody_undefined H root rootMap _ _ _ _ _ sO ?_ hctl hstub2 entries hout
        intro kv hkv
        simp at hkv
  · intro H root env tm rootList l hv hproc hm hstubH out hout
    unfold flowList at hout
    rw [hv] at hout
    dsimp only at hout
    rw [hproc, hm] at hout
    rw [Value_finishList, Value_wrapListResult] at hout
    simp only [reduceIte] at hout
    try dsimp only at hout
    split at hout
    · dsimp only at hout
      rcases Val.seq.inj hout with h
      subst h
      exact elementPass_undefined _ _ _ _
    · split at hout
      case _ stubN hs =>
        split at hout
        · split at hout
          case _ m hm2 =>
            dsimp only at hout
            rcases Val.seq.inj hout with h
            subst h
            intro v hv2
            rcases List.mem_append.mp hv2 with h2 | h2
            · rcases List.mem_filter.mp h2 with ⟨h3, h4⟩
              exact hstubH stubN m hs hm2 v h3 (by simpa using h4)
            · exact elementPass_undefined _ _ _ _ v h2
          all_goals
            (dsimp only at hout
             rcases Val.seq.inj hout with h
             subst h
             exact elementPass_undefined _ _ _ _)
        · dsimp only at hout
          rcases Val.seq.inj hout with h
          subst h
          exact elementPass_undefined _ _ _ _
      case _ hs =>
        dsimp only at hout
        rcases Val.seq.inj hout with h
        subst h
        exact elementPass_undefined _ _ _ _

/-- Witness for C2 at concrete map and list nodes. -/
theorem c2_undefined_nodes_dropped_witness :
    (∀ entries, Node.Value (flowMap trivH c2Root {} true false) = .map entries →
      ∀ kv ∈ entries, Node.Undefined kv.2 = false) ∧
    (∀ out, Node.Value (flowList trivH c2ListRoot {} false) = .seq out →
      ∀ v ∈ out, Node.Undefined v = false) :=
  ⟨c2_undefined_nodes_dropped.1 trivH c2Root {} true false
    [("a", NewNode (.str "x") "doc"), ("b", NewNode (.str "y") "doc")] rfl
    (by intro kv h
        rcases List.mem_cons.mp h with h | h
        · rw [h]; rfl
        · rcases List.mem_cons.mp h with h | h
          · rw [h]; rfl
          · simp at h)
    (fun _ _ _ => rfl)
    (fun mv bm h => by rcases h with h | h <;> exact Option.noConfusion h)
    (fun s m h => Option.noConfusion h),
   c2_undefined_nodes_dropped.2 trivH c2ListRoot {} false
    [UndefinedNode (NewNode (.str "x") "doc"), NewNode (.str "y") "doc"]
    [UndefinedNode (NewNode (.str "x") "doc"), NewNode (.str "y") "doc"]
    rfl rfl rfl
    (fun s m h => Option.noConfusion h)⟩

theorem length_stripEntries (l : List (String × Node)) :
    (stripEntries l).length = l.length := by
  induction l with
  | nil => rfl
  | cons p rest ih =>
    rcases p with ⟨k, v⟩
    simp [stripEntries, ih]

theorem length_stripNodes (l : List Node) : (stripNodes l).length = l.length := by
  induction l with
  | nil => rfl
  | cons n rest ih => simp [stripNodes, ih]

theorem lookupKey_stripEntries (k : String) (ov : List (String × Node)) :
    lookupKey (stripEntries ov) k = (lookupKey ov k).map stripNode := by
  induction ov with
  | nil => rfl
  | cons p rest ih =>
    rcases p with ⟨k', v⟩
    by_cases h : (k' == k) = true
    · simp [stripEntries, lookupKey, List.find?, h]
    · simp only [stripEntries, lookupKey, List.find?, h] at *
      exact ih

mutual
theorem equivNode_strip : ∀ (n o : Node),
    equivNode (stripNode n) (stripNode o) = equivNode n o
  | .mk v s a, .mk w t b => by
    simp only [stripNode, equivNode]
    exact equivVal_strip v w

theorem equivVal_strip : ∀ (a b : Val),
    equivVal (stripVal a) (stripVal b) = equivVal a b
  | a, b => by
    cases a <;> cases b <;> try simp [stripVal, equivVal]
    case map.map nv ov =>
      simp [stripVal, equivVal, length_stripEntries, equivEntries_strip nv ov]
    case seq.seq nv ov =>
      simp [stripVal, equivVal, length_stripNodes, equivNodes_strip nv ov]

theorem equivEntries_strip : ∀ (nv ov : List (String × Node)),
    equivEntries (stripEntries nv) (stripEntries ov) = equivEntries nv ov
  | [], ov => by simp [stripEntries, equivEntries]
  | (k, nval) :: rest, ov => by
    simp only [stripEntries, equivEntries, lookupKey_stripEntries]
    rw [equivEntries_strip rest ov]
    cases h : lookupKey ov k with
    | none => simp
    | some oval => simp [equivNode_strip nval oval]

theorem equivNodes_strip : ∀ (ns os : List Node),
    equivNodes (stripNodes ns) (stripNodes os) = equivNodes ns os
  | [], os => by cases os <;> simp [stripNodes, equivNodes]
  | n :: ns, os => by
    cases os with
    | nil => simp [stripNodes, equivNodes]
    | cons o os => simp [stripNodes, equivNodes, equivNode_strip n o, equivNodes_strip ns os]
end

/-- C10: `EquivalentToNode` compares only the values of the two nodes,
recursing through maps and sequences; the annotations and source names of
the nodes -- at the top and on every container child -- never influence the
result: erasing them all leaves the comparison unchanged.  (Values compared
by the `reflect.DeepEqual` leaf fallback, such as template values, are part
of the value itself and are compared verbatim.) -/
theorem c10_equivalence_ignores_annotations (n o : Node) :
    equivNode n o = equivNode (stripNode n) (stripNode o) :=
  (equivNode_strip n o).symm

theorem charListLt_irrefl : ∀ (l : List Char), charListLt l l = false
  | [] => rfl
  | c :: cs => by simp [charListLt, lt_irrefl, charListLt_irrefl cs]

theorem charListLt_asymm : ∀ (a b : List Char),
    charListLt a b = true → charListLt b a = false
  | [], [] => by simp [charListLt]
  | [], _ :: _ => by simp [charListLt]
  | _ :: _, [] => by simp [charListLt]
  | c :: cs, d :: ds => by
    simp only [charListLt]
    intro hab
    rcases lt_trichotomy c d with h | h | h
    · simp [h, asymm h]
    · subst h
      simp only [lt_irrefl, if_false] at hab ⊢
      exact charListLt_asymm cs ds hab
    · simp [h, asymm h] at hab

theorem charListLt_trans : ∀ (a b c : List Char),
    charListLt a b = true → charListLt b c = true → charListLt a c = true
  | [], [], _ => by simp [charListLt]
  | [], _ :: _, [] => by simp [charListLt]
  | [], _ :: _, _ :: _ => by simp [charListLt]
  | _ :: _, [], _ => by simp [charListLt]
  | _ :: _, _ :: _, [] => by intro _ h; simp [charListLt] at h
  | c1 :: cs1, c2 :: cs2, c3 :: cs3 => by
    simp only [charListLt]
    intro hab hbc
    rcases lt_trichotomy c1 c2 with h12 | h12 | h12
    · rcases lt_trichotomy c2 c3 with h23 | h23 | h23
      · simp [lt_trans h12 h23]
      · subst h23
        simp [h12]
      · simp [asymm h23, h23] at hbc
    · subst h12
      rcases lt_trichotomy c1 c3 with h23 | h23 | h23
      · simp [h23]
      · subst h23
        simp only [lt_irrefl, if_false] at hab hbc ⊢
        exact charListLt_trans cs1 cs2 cs3 hab hbc
      · simp [asymm h23, h23] at hbc
    · simp [asymm h12, h12] at hab

theorem charListLt_antisymm_eq : ∀ (a b : List Char),
    charListLt a b = false → charListLt b a = false → a = b
  | [], [] => by simp
  | [], _ :: _ => by simp [charListLt]
  | _ :: _, [] => by intro _ h; simp [charListLt] at h
  | c :: cs, d :: ds => by
    simp only [charListLt]
    intro hab hba
    rcases lt_trichotomy c d with h | h | h
    · simp [h] at hab
    · subst h
      simp only [lt_irrefl, if_false] at hab hba
      rw [charListLt_antisymm_eq cs ds hab hba]
    · simp [h, asymm h] at hba

theorem strLt_irrefl (a : String) : strLt a a = false := charListLt_irrefl _

theorem strLt_asymm (a b : String) (h : strLt a b = true) : strLt b a = false :=
  charListLt_asymm _ _ h

theorem strLt_trans (a b c : String) (h1 : strLt a b = true) (h2 : strLt b c = true) :
    strLt a c = true :=
  charListLt_trans _ _ _ h1 h2

theorem strLt_antisymm_eq (a b : String) (h1 : strLt a b = false)
    (h2 : strLt b a = false) : a = b := by
  cases a with | mk da =>
  cases b with | mk db =>
  have := charListLt_antisymm_eq da db h1 h2
  rw [this]

theorem strLt_cases (a b : String) : strLt a b = true ∨ strLt b a = true ∨ a = b := by
  cases h1 : strLt a b
  · cases h2 : strLt b a
    · exact Or.inr (Or.inr (strLt_antisymm_eq a b h1 h2))
    · exact Or.inr (Or.inl rfl)
  · exact Or.inl rfl

theorem strLt_true_split (x y z : String) (h : strLt x z = true) :
    strLt x y = true ∨ strLt y z = true := by
  rcases strLt_cases x y with h1 | h1 | h1
  · exact Or.inl h1
  · exact Or.inr (strLt_trans y x z h1 h)
  · exact Or.inr (h1 ▸ h)

theorem strLt_false_trans (x y z : String) (h1 : strLt x y = false)
    (h2 : strLt y z = false) : strLt x z = false := by
  cases h : strLt x z
  · rfl
  · rcases strLt_true_split x y z h with h3 | h3
    · rw [h1] at h3
      exact h3.symm
    · rw [h2] at h3
      exact h3.symm

theorem strCompare_pos (a b : String) : strCompare a b > 0 ↔ strLt b a = true := by
  unfold strCompare
  cases h1 : strLt a b
  · cases h2 : strLt b a
    · simp +decide [h2]
    · simp +decide [h2]
  · simp +decide [strLt_asymm a b h1]

theorem strCompare_zero (a b : String) : strCompare a b = 0 ↔ a = b := by
  unfold strCompare
  cases h1 : strLt a b
  · cases h2 : strLt b a
    · simp +decide [strLt_antisymm_eq a b h1 h2]
    · have hne : a ≠ b := by
        intro he
        subst he
        rw [strLt_irrefl] at h2
        cases h2
      simp +decide [hne]
  · have hne : a ≠ b := by
      intro he
      subst he
      rw [strLt_irrefl] at h1
      cases h1
    simp +decide [hne]

theorem iterLess_iff (x y : Iteration) :
    iterLess x y = true ↔
      (strLt y.name x.name = true ∨ (x.name = y.name ∧ strLt y.index x.index = true)) := by
  unfold iterLess
  by_cases h : strCompare x.name y.name = 0
  · have he : x.name = y.name := (strCompare_zero _ _).mp h
    simp only [h, bne_self_eq_false, Bool.false_eq_true, if_false, decide_eq_true_eq,
      strCompare_pos]
    rw [he, strLt_irrefl]
    simp [he]
  · have hne : x.name ≠ y.name := fun he => h ((strCompare_zero _ _).mpr he)
    have hbne : (strCompare x.name y.name != 0) = true := by
      simp [bne_iff_ne, h]
    rw [if_pos hbne]
    simp only [decide_eq_true_eq, strCompare_pos]
    constructor
    · exact Or.inl
    · rintro (h2 | ⟨h2, _⟩)
      · exact h2
      · exact absurd h2 hne

theorem iterOrd_iff (a b : Iteration) :
    iterOrd a b ↔
      ¬(strLt a.name b.name = true ∨ (b.name = a.name ∧ strLt a.index b.index = true)) := by
  unfold iterOrd
  rw [Bool.eq_false_iff, Ne, iterLess_iff]

theorem iterOrd_total (a b : Iteration) : iterOrd a b ∨ iterOrd b a := by
  rw [iterOrd_iff, iterOrd_iff]
  by_contra hc
  push_neg at hc
  rcases hc with ⟨h1, h2⟩
  rcases h1 with h1 | ⟨he1, hi1⟩ <;> rcases h2 with h2 | ⟨he2, hi2⟩
  · rw [strLt_asymm _ _ h1] at h2
    cases h2
  · rw [he2] at h1
    rw [strLt_irrefl] at h1
    cases h1
  · rw [he1] at h2
    rw [strLt_irrefl] at h2
    cases h2
  · rw [strLt_asymm _ _ hi1] at hi2
    cases hi2

theorem iterOrd_trans (a b c : Iteration) : iterOrd a b → iterOrd b c → iterOrd a c := by
  rw [iterOrd_iff, iterOrd_iff, iterOrd_iff]
  intro hab hbc
  push_neg at hab hbc
  obtain ⟨hab1, hab2⟩ := hab
  obtain ⟨hbc1, hbc2⟩ := hbc
  have hab1' := Bool.eq_false_iff.mpr hab1
  have hbc1' := Bool.eq_false_iff.mpr hbc1
  intro hac
  rcases hac with h | ⟨he, hi⟩
  · rw [strLt_false_trans a.name b.name c.name hab1' hbc1'] at h
    cases h
  · have hcb : strLt b.name a.name = false := he ▸ hbc1'
    have hab' : b.name = a.name := (strLt_antisymm_eq a.name b.name hab1' hcb).symm
    have hcb' : c.name = b.name := he.trans hab'.symm
    have h1 := Bool.eq_false_iff.mpr (hab2 hab')
    have h2 := Bool.eq_false_iff.mpr (hbc2 hcb')
    rw [strLt_false_trans a.index b.index c.index h1 h2] at hi
    cases hi

/-- `sort.Sort` with `iterations.Less` leaves no inversion: the sorted
ranges satisfy `iterOrd` pairwise (descending by name, then index name). -/
theorem sortIterations_sorted (l : List Iteration) :
    List.Sorted iterOrd (sortIterations l) := by
  haveI : IsTotal Iteration iterOrd := ⟨iterOrd_total⟩
  haveI : IsTrans Iteration iterOrd := ⟨fun a b c => iterOrd_trans a b c⟩
  exact List.sorted_insertionSort iterOrd l

theorem sortIterations_names_desc (l : List Iteration)
    (hnodup : (l.map Iteration.name).Nodup) :
    List.Sorted (fun a b : String => strLt a b = true)
      (((sortIterations l).map Iteration.name).reverse) := by
  have hperm : List.Perm (sortIterations l) l := List.perm_insertionSort _ _
  have hnodup2 : ((sortIterations l).map Iteration.name).Nodup :=
    ((hperm.map Iteration.name).nodup_iff).mpr hnodup
  have hsorted := sortIterations_sorted l
  have hne : List.Pairwise (fun x y : Iteration => x.name ≠ y.name) (sortIterations l) := by
    rw [List.Nodup, List.pairwise_map] at hnodup2
    exact hnodup2
  have hp1 : List.Pairwise (fun x y : Iteration => strLt y.name x.name = true)
      (sortIterations l) := by
    refine (hsorted.and hne).imp ?_
    rintro x y ⟨ho, hn⟩
    rw [iterOrd_iff] at ho
    push_neg at ho
    have h1 : strLt x.name y.name = false := Bool.eq_false_iff.mpr ho.1
    rcases strLt_cases y.name x.name with h2 | h2 | h2
    · exact h2
    · rw [h1] at h2
      cases h2
    · exact absurd h2.symm hn
  exact List.pairwise_reverse.mpr ((List.pairwise_map).mpr hp1)

/-- C3 counterexample to the claim as stated: sorting the ranges named `a`
and `b` with the source's `Less` puts `b` first -- descending, not
"lexicographically in ascending order by variable name". -/
theorem c3_ranges_not_sorted_ascending_counterexample :
    (sortIterations [c3A, c3B]).map Iteration.name = ["b", "a"] ∧
    strLt "a" "b" = true ∧
    ¬ List.Sorted (fun a b : String => strLt a b = true ∨ a = b)
      ((sortIterations [c3A, c3B]).map Iteration.name) := by
  refine ⟨rfl, rfl, ?_⟩
  intro h
  have h' : List.Sorted (fun a b : String => strLt a b = true ∨ a = b) ["b", "a"] := h
  have h2 := List.rel_of_sorted_cons h' "a" (by simp)
  rcases h2 with h2 | h2
  · exact Bool.noConfusion h2
  · exact absurd h2 (by decide)

theorem head?_flatMap_cons {α β : Type _} (f : β → List α) (x : β) (l : List β)
    (hne : f x ≠ []) : ((x :: l).flatMap f).head? = (f x).head? := by
  rw [List.flatMap_cons, List.head?_append]
  cases hfx : f x with
  | nil => exact absurd hfx hne
  | cons a as => simp

theorem getLast?_flatMap_blocks {α β : Type _} (f : β → List α) :
    ∀ (l : List β), (∀ x ∈ l, f x ≠ []) → ∀ x, l.getLast? = some x →
      (l.flatMap f).getLast? = (f x).getLast? := by
  intro l
  induction l with
  | nil => intro _ x hx; cases hx
  | cons y l ih =>
    intro hne x hx
    cases l with
    | nil =>
      simp only [List.getLast?_singleton] at hx
      rcases Option.some.inj hx with rfl
      simp
    | cons z l' =>
      rw [List.getLast?_cons_cons] at hx
      rw [List.flatMap_cons, List.getLast?_append]
      rw [ih (fun a ha => hne a (List.mem_cons_of_mem _ ha)) x hx]
      have hfx : f x ≠ [] :=
        hne x (List.mem_cons_of_mem _ (List.mem_of_getLast?_eq_some hx))
      cases hgl : (f x).getLast? with
      | none => exact absurd (List.getLast?_eq_none_iff.mp hgl) hfx
      | some a => simp

theorem chain'_flatMap_blocks {α β : Type _} (R : α → α → Prop) (f : β → List α) :
    ∀ (l : List β), (∀ x ∈ l, f x ≠ []) → (∀ x ∈ l, List.Chain' R (f x)) →
      List.Chain' (fun x y => ∀ a ∈ (f x).getLast?, ∀ c ∈ (f y).head?, R a c) l →
      List.Chain' R (l.flatMap f) := by
  intro l
  induction l with
  | nil => intro _ _ _; simp
  | cons x l ih =>
    intro hne hblk hbd
    rw [List.flatMap_cons, List.chain'_append]
    refine ⟨hblk x (by simp),
      ih (fun a ha => hne a (by simp [ha])) (fun a ha => hblk a (by simp [ha])) hbd.tail, ?_⟩
    intro a ha c hc
    cases l with
    | nil => simp at hc
    | cons y l' =>
      have hfy : f y ≠ [] := hne y (by simp)
      rw [head?_flatMap_cons f y l' hfy] at hc
      exact (List.chain'_cons.mp hbd).1 a ha c hc

theorem pairwise_flatMap_blocks {α β : Type _} (R : α → α → Prop) (f : β → List α) :
    ∀ (l : List β), (∀ x ∈ l, List.Pairwise R (f x)) →
      List.Pairwise (fun x y => ∀ a ∈ f x, ∀ c ∈ f y, R a c) l →
      List.Pairwise R (l.flatMap f) := by
  intro l
  induction l with
  | nil => intro _ _; simp
  | cons x l ih =>
    intro hin hp
    rw [List.flatMap_cons, List.pairwise_append]
    refine ⟨hin x (by simp), ih (fun y hy => hin y (by simp [hy])) hp.of_cons, ?_⟩
    intro a ha c hc
    rcases List.mem_flatMap.mp hc with ⟨y, hy, hcy⟩
    exact (List.pairwise_cons.mp hp).1 y hy a ha c hcy

/-- The odometer state list is exactly the `incrState` orbit: nonempty,
starting at the all-zero state, every consecutive pair one increment apart,
and the final state the one on which the increment sweep breaks out. -/
theorem odo_orbit : ∀ (bs : List Nat), (∀ x ∈ bs, 0 < x) →
    odoStates bs ≠ [] ∧
    (odoStates bs).head? = some (zerosOf bs) ∧
    List.Chain' (fun s t => incrState bs s = some t) (odoStates bs) ∧
    (∀ s, (odoStates bs).getLast? = some s → incrState bs s = none) := by
  intro bs
  induction bs with
  | nil =>
    intro _
    refine ⟨by simp [odoStates], by simp [odoStates, zerosOf], by simp [odoStates], ?_⟩
    intro s hs
    simp only [odoStates, List.getLast?_singleton] at hs
    rcases Option.some.inj hs with rfl
    rfl
  | cons b bs ih =>
    intro h
    have hb : 0 < b := h b (by simp)
    obtain ⟨hneT, hheadT, hchainT, hlastT⟩ := ih (fun x hx => h x (by simp [hx]))
    obtain ⟨m, rfl⟩ : ∃ m, b = m + 1 := ⟨b - 1, by omega⟩
    have hfne : ∀ t : List Nat, (List.range (m + 1)).map (fun c => c :: t) ≠ [] := by
      intro t
      simp [List.range_eq_nil]
    have hfhead : ∀ t : List Nat,
        ((List.range (m + 1)).map (fun c => c :: t)).head? = some (0 :: t) := by
      intro t
      rw [List.range_succ_eq_map]
      simp
    have hflast : ∀ t : List Nat,
        ((List.range (m + 1)).map (fun c => c :: t)).getLast? = some (m :: t) := by
      intro t
      rw [List.getLast?_map, List.range_succ]
      simp
    have hblk : ∀ t : List Nat,
        List.Chain' (fun s u => incrState ((m + 1) :: bs) s = some u)
          ((List.range (m + 1)).map (fun c => c :: t)) := by
      intro t
      rw [List.chain'_map, List.chain'_range_succ]
      intro i hi
      simp [incrState, Nat.succ_lt_succ hi]
    have hstep : odoStates ((m + 1) :: bs)
        = (odoStates bs).flatMap (fun t => (List.range (m + 1)).map (fun c => c :: t)) := rfl
    refine ⟨?_, ?_, ?_, ?_⟩
    · rw [hstep]
      cases hts : odoStates bs with
      | nil => exact absurd hts hneT
      | cons t0 rest =>
        intro hcontra
        rw [List.flatMap_cons] at hcontra
        exact hfne t0 (List.append_eq_nil.mp hcontra).1
    · rw [hstep]
      cases hts : odoStates bs with
      | nil => exact absurd hts hneT
      | cons t0 rest =>
        have ht0 : t0 = zerosOf bs := by
          rw [hts] at hheadT
          exact (Option.some.inj hheadT)
        rw [head?_flatMap_cons _ t0 rest (hfne t0), hfhead t0, ht0]
        rfl
    · rw [hstep]
      refine chain'_flatMap_blocks _ _ (odoStates bs) (fun t _ => hfne t)
        (fun t _ => hblk t) ?_
      refine hchainT.imp ?_
      intro t t' hstp a ha c hc
      rw [hflast t] at ha
      rw [hfhead t'] at hc
      simp only [Option.mem_def, Option.some.injEq] at ha hc
      subst ha
      subst hc
      simp [incrState, hstp, Nat.lt_irrefl]
    · rw [hstep]
      intro s hs
      cases hts : (odoStates bs).getLast? with
      | none => exact absurd (List.getLast?_eq_none_iff.mp hts) hneT
      | some tl =>
        rw [getLast?_flatMap_blocks _ (odoStates bs) (fun t _ => hfne t) tl hts,
          hflast tl] at hs
        rcases Option.some.inj hs with rfl
        simp [incrState, hlastT tl hts, Nat.lt_irrefl]

theorem flatMap_pure {α β : Type _} (f : α → β) :
    ∀ l : List α, (l.flatMap fun x => [f x]) = l.map f := by
  intro l
  induction l with
  | nil => rfl
  | cons a l ih => simp [List.flatMap_cons, ih]

theorem lexProd_concat (b : Nat) : ∀ (l : List Nat),
    lexProd (l ++ [b])
      = (lexProd l).flatMap (fun t => (List.range b).map (fun c => t ++ [c])) := by
  intro l
  induction l with
  | nil =>
    simp [lexProd, flatMap_pure]
  | cons a l ih =>
    have ih' : lexProd (List.append l [b])
        = (lexProd l).flatMap (fun t => (List.range b).map (fun c => t ++ [c])) := ih
    simp only [List.cons_append, lexProd, ih', List.map_flatMap, List.flatMap_map,
      List.flatMap_assoc, List.map_map, Function.comp_def]

theorem odo_map_reverse : ∀ (bs : List Nat),
    (odoStates bs).map List.reverse = lexProd bs.reverse := by
  intro bs
  induction bs with
  | nil => rfl
  | cons b bs ih =>
    rw [List.reverse_cons, lexProd_concat, ← ih]
    simp [odoStates, List.map_flatMap, List.flatMap_map, List.map_map, Function.comp_def,
      List.reverse_cons]

theorem lexProd_pairwise : ∀ (bs : List Nat),
    List.Pairwise (fun s t => List.Lex (· < ·) s t) (lexProd bs) := by
  intro bs
  induction bs with
  | nil => simp [lexProd]
  | cons b bs ih =>
    refine pairwise_flatMap_blocks _ _ (List.range b) ?_ ?_
    · intro c _
      exact List.Pairwise.map _ (fun a x h => List.Lex.cons h) ih
    · refine (List.pairwise_lt_range b).imp ?_
      intro c c' hcc a ha x hx
      rcases List.mem_map.mp ha with ⟨s, _, rfl⟩
      rcases List.mem_map.mp hx with ⟨t, _, rfl⟩
      exact List.Lex.rel hcc

/-- C3 (amended): `iterations.Less` sorts the ranges in DESCENDING order of
range-variable name (and, for equal names, descending index name), not
ascending as claimed. The odometer loop of `flowFor` increments index 0
first, i.e. the FIRST range of the sorted (descending) slice varies
fastest. Consequently, reading each iteration tuple in ASCENDING name
order (the reverse of the sorted slice), the enumeration starts at the
all-zero tuple, advances by exactly one odometer increment per step,
terminates on the tuple where the increment sweep overflows, and the
tuples appear in strictly ascending lexicographic order. -/
theorem c3_sorted_descending_enumeration_lex_ascending
    (l : List Iteration)
    (hnodup : (l.map Iteration.name).Nodup)
    (hpos : ∀ r ∈ sortIterations l, 0 < r.size) :
    List.Sorted iterOrd (sortIterations l) ∧
    List.Sorted (fun a b : String => strLt a b = true)
      (((sortIterations l).map Iteration.name).reverse) ∧
    (odoStates ((sortIterations l).map Iteration.size)).head?
      = some (zerosOf ((sortIterations l).map Iteration.size)) ∧
    List.Chain' (fun s t => incrState ((sortIterations l).map Iteration.size) s = some t)
      (odoStates ((sortIterations l).map Iteration.size)) ∧
    (∀ s, (odoStates ((sortIterations l).map Iteration.size)).getLast? = some s →
      incrState ((sortIterations l).map Iteration.size) s = none) ∧
    List.Pairwise (fun s t => List.Lex (fun a b : Nat => a < b) s t)
      ((odoStates ((sortIterations l).map Iteration.size)).map List.reverse) := by
  have hbases : ∀ b ∈ (sortIterations l).map Iteration.size, 0 < b := by
    intro b hb
    rcases List.mem_map.mp hb with ⟨r, hr, rfl⟩
    exact hpos r hr
  obtain ⟨hne, hhead, hchain, hlast⟩ := odo_orbit _ hbases
  refine ⟨sortIterations_sorted l, sortIterations_names_desc l hnodup,
    hhead, hchain, hlast, ?_⟩
  rw [odo_map_reverse]
  exact lexProd_pairwise _

theorem c3_sorted_descending_enumeration_lex_ascending_witness :
    (([c3A, c3B].map Iteration.name).Nodup ∧
      ∀ r ∈ sortIterations [c3A, c3B], 0 < r.size) ∧
    (List.Sorted iterOrd (sortIterations [c3A, c3B]) ∧
    List.Sorted (fun a b : String => strLt a b = true)
      (((sortIterations [c3A, c3B]).map Iteration.name).reverse) ∧
    (odoStates ((sortIterations [c3A, c3B]).map Iteration.size)).head?
      = some (zerosOf ((sortIterations [c3A, c3B]).map Iteration.size)) ∧
    List.Chain' (fun s t =>
        incrState ((sortIterations [c3A, c3B]).map Iteration.size) s = some t)
      (odoStates ((sortIterations [c3A, c3B]).map Iteration.size)) ∧
    (∀ s, (odoStates ((sortIterations [c3A, c3B]).map Iteration.size)).getLast? = some s →
      incrState ((sortIterations [c3A, c3B]).map Iteration.size) s = none) ∧
    List.Pairwise (fun s t => List.Lex (fun a b : Nat => a < b) s t)
      ((odoStates ((sortIterations [c3A, c3B]).map Iteration.size)).map List.reverse)) :=
  ⟨⟨by decide, by decide⟩,
    c3_sorted_descending_enumeration_lex_ascending [c3A, c3B] (by decide) (by decide)⟩

/-- C5 counterexample to the claim as stated: the INJECT-flagged stub
element carries the same `name` identity as an element already present in
the result list, yet it is prepended anyway -- the output holds both. -/
theorem c5_present_element_still_injected_counterexample :
    (Node.Flags c5stubElem).inject = true ∧
    nameOf c5stubElem = some (.str "n1") ∧
    nameOf c5elem = some (.str "n1") ∧
    c5pm.ismerged = false ∧
    Node.Value (flowList c5H c5Root {} false) = .seq [c5stubElem, c5elem] :=
  ⟨rfl, rfl, rfl, rfl, rfl⟩

end Spiff
